import Mathlib

/-!
Verification of the NLP Query Engine core against its specification.

The Python sources under `backend/api/services/` are shallowly embedded:

* strings are `String` (or `List Char` where induction over characters is
  needed), `str.lower`/`str.upper` are mapped over `Char.toLower`/`Char.toUpper`
  (the inputs of interest are ASCII, where Lean's and Python's case maps agree);
* Python's substring test `needle in hay` is the executable `hasSub`;
* Python `float` arithmetic is idealised as exact rational arithmetic (`ℚ`);
  every numeric constant involved (`0.2`, `0.5`, `0.9`, `0.7`, `0.8`) is far
  from any rounding boundary on the inputs these functions see;
* `dict`/`OrderedDict` are association lists in insertion/recency order
  (head = oldest, tail = newest), which is exactly the iteration order the
  Python code relies on;
* exceptions are `Option`/`Except`, wall-clock values are explicit parameters.
-/

namespace NLPQE

/-- Python whitespace (`str.strip`, `\s` in `re`) restricted to ASCII. -/
def pySpace (c : Char) : Bool :=
  c = ' ' || c = '\t' || c = '\n' || c = '\r' || c = '\x0b' || c = '\x0c'

/-- `startsWith n h` holds when list `n` is a prefix of list `h`. -/
def startsWith : List Char → List Char → Bool
  | [], _ => true
  | _ :: _, [] => false
  | a :: as, b :: bs => a = b && startsWith as bs

/-- `hasSub n h`: Python's `n in h`, i.e. `n` occurs contiguously in `h`. -/
def hasSub : List Char → List Char → Bool
  | n, [] => n.isEmpty
  | n, c :: rest => startsWith n (c :: rest) || hasSub n rest

/-- Python `needle in hay` on strings. -/
def pyContains (needle hay : String) : Bool :=
  hasSub needle.toList hay.toList

/-- Python `str.lower` (ASCII). -/
def pyLower (s : String) : String :=
  ⟨s.toList.map Char.toLower⟩

/-- Python `str.upper` (ASCII). -/
def pyUpper (s : String) : String :=
  ⟨s.toList.map Char.toUpper⟩

theorem startsWith_iff (n h : List Char) :
    startsWith n h = true ↔ ∃ v, h = n ++ v := by
  induction n generalizing h with
  | nil => simp [startsWith]
  | cons a as ih =>
    cases h with
    | nil => simp [startsWith]
    | cons b bs =>
      simp only [startsWith, Bool.and_eq_true, decide_eq_true_eq, ih, List.cons_append,
        List.cons.injEq]
      constructor
      · rintro ⟨rfl, v, rfl⟩; exact ⟨v, rfl, rfl⟩
      · rintro ⟨v, rfl, rfl⟩; exact ⟨rfl, v, rfl⟩

theorem hasSub_iff (n h : List Char) :
    hasSub n h = true ↔ ∃ u v, h = u ++ n ++ v := by
  induction h with
  | nil =>
    simp only [hasSub, List.isEmpty_iff]
    constructor
    · rintro rfl; exact ⟨[], [], rfl⟩
    · rintro ⟨u, v, h⟩
      rcases List.append_eq_nil.mp ((List.append_eq_nil).mp h.symm).1 with ⟨-, h2⟩
      exact h2
  | cons c rest ih =>
    simp only [hasSub, Bool.or_eq_true, startsWith_iff, ih]
    constructor
    · rintro (⟨v, hv⟩ | ⟨u, v, huv⟩)
      · exact ⟨[], v, by simpa using hv⟩
      · exact ⟨c :: u, v, by simp [huv]⟩
    · rintro ⟨u, v, huv⟩
      cases u with
      | nil => exact Or.inl ⟨v, by simpa using huv⟩
      | cons d u' =>
        right
        have h' : c :: rest = d :: (u' ++ n ++ v) := by simpa using huv
        rw [List.cons.injEq] at h'
        exact ⟨u', v, h'.2⟩

/-! ## Query classification (`QueryEngine._classify_query`) -/

/-- SQL indicator vocabulary from `_classify_query`. -/
def sql_indicators : List String :=
  ["count", "average", "sum", "total", "max", "min",
   "salary", "department", "employee", "staff",
   "hired", "join date", "position", "role"]

/-- Document indicator vocabulary from `_classify_query`. -/
def document_indicators : List String :=
  ["resume", "cv", "skills", "experience",
   "python", "java", "programming", "developer",
   "review", "performance", "contract", "document"]

/-- Hybrid indicator vocabulary from `_classify_query`. -/
def hybrid_indicators : List String :=
  ["with skills", "developers in", "engineers who",
   "employees with experience", "staff members with"]

/-- `sum(1 for indicator in indicators if indicator in query_lower)`. -/
def countIndicators (indicators : List String) (queryLower : String) : Nat :=
  (indicators.filter (fun i => pyContains i queryLower)).length

/-- Result dictionary of `_classify_query`. -/
structure Classification where
  qtype : String
  confidence : ℚ
  sql_score : Nat
  document_score : Nat
  hybrid_score : Nat
  deriving Repr, DecidableEq

/-- `QueryEngine._classify_query`, with `float` idealised as `ℚ`. -/
def classify_query (query : String) : Classification :=
  let query_lower := pyLower query
  let sql_score := countIndicators sql_indicators query_lower
  let doc_score := countIndicators document_indicators query_lower
  let hybrid_score := countIndicators hybrid_indicators query_lower
  if hybrid_score > 0 ∨ (sql_score > 0 ∧ doc_score > 0) then
    { qtype := "hybrid",
      confidence := min (9/10) ((sql_score + doc_score + hybrid_score : ℚ) * (2/10)),
      sql_score := sql_score, document_score := doc_score, hybrid_score := hybrid_score }
  else if sql_score > doc_score then
    { qtype := "sql", confidence := min (9/10) ((sql_score : ℚ) * (2/10)),
      sql_score := sql_score, document_score := doc_score, hybrid_score := hybrid_score }
  else if doc_score > 0 then
    { qtype := "document", confidence := min (9/10) ((doc_score : ℚ) * (2/10)),
      sql_score := sql_score, document_score := doc_score, hybrid_score := hybrid_score }
  else
    { qtype := "general", confidence := 1/2,
      sql_score := sql_score, document_score := doc_score, hybrid_score := hybrid_score }

/-- C1 (counterexample): the claim's spec example is false on the code.
`classify("Show me resumes with Python skills")` yields type `hybrid`, not
`document`: the lower-cased query contains the SQL keyword `sum` (inside the
word `resumes`), so `sql_score = 1` and `doc_score = 3`, which fires the
higher-priority hybrid branch `sql_score > 0 ∧ doc_score > 0`. -/
theorem classify_example_counterexample :
    (classify_query "Show me resumes with Python skills").qtype = "hybrid" ∧
    (classify_query "Show me resumes with Python skills").sql_score = 1 ∧
    (classify_query "Show me resumes with Python skills").document_score = 3 ∧
    (classify_query "Show me resumes with Python skills").qtype ≠ "document" := by
  decide

/-- C1 (amended): classification follows the spec's exact decision priority —
hybrid if `hybrid_score>0` or (`sql_score>0` and `doc_score>0`); else sql if
`sql_score>doc_score`; else document if `doc_score>0`; else general.  The
scores are the counts of fixed vocabulary keywords contained in the
lower-cased query, a non-general branch has confidence
`min(0.9, combined_score × 0.2)`, and a general classification has confidence
exactly `0.5`.  Amendment forced by `classify_example_counterexample`:
`classify("Show me resumes with Python skills")` is typed `hybrid`
(not `document` as the spec example says), because `sum ⊆ resumes` gives it a
positive SQL score alongside its positive document score. -/
theorem classify_query_matches_spec (query : String) :
    (classify_query query).sql_score = countIndicators sql_indicators (pyLower query) ∧
    (classify_query query).document_score =
      countIndicators document_indicators (pyLower query) ∧
    (classify_query query).hybrid_score =
      countIndicators hybrid_indicators (pyLower query) ∧
    ((classify_query query).hybrid_score > 0 ∨
        ((classify_query query).sql_score > 0 ∧ (classify_query query).document_score > 0) →
      (classify_query query).qtype = "hybrid" ∧
      (classify_query query).confidence =
        min (9/10) (((classify_query query).sql_score + (classify_query query).document_score +
          (classify_query query).hybrid_score : ℚ) * (2/10))) ∧
    (¬((classify_query query).hybrid_score > 0 ∨
        ((classify_query query).sql_score > 0 ∧ (classify_query query).document_score > 0)) →
      (classify_query query).sql_score > (classify_query query).document_score →
      (classify_query query).qtype = "sql" ∧
      (classify_query query).confidence =
        min (9/10) (((classify_query query).sql_score : ℚ) * (2/10))) ∧
    (¬((classify_query query).hybrid_score > 0 ∨
        ((classify_query query).sql_score > 0 ∧ (classify_query query).document_score > 0)) →
      ¬((classify_query query).sql_score > (classify_query query).document_score) →
      (classify_query query).document_score > 0 →
      (classify_query query).qtype = "document" ∧
      (classify_query query).confidence =
        min (9/10) (((classify_query query).document_score : ℚ) * (2/10))) ∧
    (¬((classify_query query).hybrid_score > 0 ∨
        ((classify_query query).sql_score > 0 ∧ (classify_query query).document_score > 0)) →
      ¬((classify_query query).sql_score > (classify_query query).document_score) →
      ¬((classify_query query).document_score > 0) →
      (classify_query query).qtype = "general") ∧
    ((classify_query query).qtype = "general" → (classify_query query).confidence = 1/2) ∧
    (classify_query "Show me resumes with Python skills").qtype = "hybrid" := by
  have hex : (classify_query "Show me resumes with Python skills").qtype = "hybrid" := by
    decide
  refine ⟨?_, ?_, ?_, ?_, ?_, ?_, ?_, ?_, hex⟩ <;>
  · unfold classify_query
    dsimp only
    split_ifs <;> simp_all

/-- Witness for C1 at the spec's own example: the non-general `sql` branch
fires on "How many employees do we have?". -/
theorem classify_query_matches_spec_witness :
    ¬((classify_query "How many employees do we have?").hybrid_score > 0 ∨
        ((classify_query "How many employees do we have?").sql_score > 0 ∧
          (classify_query "How many employees do we have?").document_score > 0)) ∧
    (classify_query "How many employees do we have?").sql_score >
      (classify_query "How many employees do we have?").document_score ∧
    (classify_query "How many employees do we have?").qtype = "sql" ∧
    (classify_query "How many employees do we have?").confidence =
      min (9/10) (((classify_query "How many employees do we have?").sql_score : ℚ) * (2/10)) := by
  refine ⟨by decide, by decide, ?_⟩
  have h := (classify_query_matches_spec "How many employees do we have?").2.2.2.2.1
    (by decide) (by decide)
  exact ⟨h.1, h.2⟩

/-! ## Query validation (`QueryEngine.validate_query`)

The four injection regexes of the source are compiled to explicit matchers.
Each regex here is anchored at a position by a `match…At` function and
searched at every position by `anyTail`, which is exactly `re.search`
semantics; `\s+`/`\s*` maximal munching is equivalent to the regex because in
every pattern the character after the whitespace class is never itself
whitespace. -/

/-- Try all suffix positions, as `re.search` does. -/
def anyTail (p : List Char → Bool) : List Char → Bool
  | [] => p []
  | c :: rest => p (c :: rest) || anyTail p rest

/-- Match a literal at the current position, returning the rest. -/
def matchLit : List Char → List Char → Option (List Char)
  | [], s => some s
  | _ :: _, [] => none
  | c :: cs, d :: ds => if c = d then matchLit cs ds else none

/-- Match `\s+` (one or more whitespace characters), returning the rest. -/
def matchWsPlus : List Char → Option (List Char)
  | [] => none
  | c :: rest => if pySpace c then some (rest.dropWhile pySpace) else none

/-- Regex `[';]--` at the current position. -/
def matchCommentAt (s : List Char) : Bool :=
  match s with
  | c :: rest => (c = '\x27' || c = ';') && (matchLit ['-', '-'] rest).isSome
  | [] => false

/-- Regex `UNION\s+SELECT` at the current position. -/
def matchUnionSelectAt (s : List Char) : Bool :=
  (((matchLit "UNION".toList s).bind matchWsPlus).bind
    (matchLit "SELECT".toList)).isSome

/-- Regex `<kw>\s+1\s*=\s*1` at the current position (`kw` is `OR` or `AND`). -/
def matchKw1eq1At (kw : String) (s : List Char) : Bool :=
  (((((matchLit kw.toList s).bind matchWsPlus).bind
    (matchLit ['1'])).map (List.dropWhile pySpace)).bind
    (fun r => (matchLit ['='] r).map (List.dropWhile pySpace))).bind
    (matchLit ['1']) |>.isSome

/-- Regex `LIMIT\s+[5-9]\d{2,}` at the current position. -/
def matchLimitAt (s : List Char) : Bool :=
  match (matchLit "LIMIT".toList s).bind matchWsPlus with
  | some (d0 :: d1 :: d2 :: _) =>
      ('5' ≤ d0 && d0 ≤ '9') && d1.isDigit && d2.isDigit
  | _ => false

/-- The `.*LIMIT\s+[5-9]\d{2,}` tail: a gap of non-newline characters (regex
`.` does not cross a newline) followed by the `LIMIT` pattern. -/
def scanLimitNoNewline : List Char → Bool
  | [] => matchLimitAt []
  | c :: rest =>
      matchLimitAt (c :: rest) || (!(c = '\n') && scanLimitNoNewline rest)

/-- Regex `SELECT\s+\*.*LIMIT\s+[5-9]\d{2,}` at the current position. -/
def matchBroadAt (s : List Char) : Bool :=
  match ((matchLit "SELECT".toList s).bind matchWsPlus).bind (matchLit ['*']) with
  | some r => scanLimitNoNewline r
  | none => false

/-- Dangerous SQL keyword list from `validate_query`. -/
def dangerous_keywords : List String :=
  ["DROP", "DELETE", "UPDATE", "INSERT", "ALTER", "CREATE"]

/-- Any of the four injection regexes matches somewhere in the text. -/
def injectionDetected (qu : List Char) : Bool :=
  anyTail matchCommentAt qu || anyTail matchUnionSelectAt qu ||
  anyTail (matchKw1eq1At "OR") qu || anyTail (matchKw1eq1At "AND") qu

/-- Result dictionary of `validate_query`. -/
structure Validation where
  is_valid : Bool
  warnings : List String
  errors : List String
  deriving Repr, DecidableEq

/-- `QueryEngine.validate_query`: dangerous-keyword scan, injection-pattern
scan (at most one error, appended after the keyword errors, exactly as the
`break` in the source does), then the two warning checks. -/
def validate_query (query : String) : Validation :=
  let qu := (pyUpper query).toList
  let foundDangerous := dangerous_keywords.filter (fun kw => hasSub kw.toList qu)
  let errors :=
    foundDangerous.map (fun kw => "Dangerous operation detected: " ++ kw) ++
      (if injectionDetected qu then ["Potential SQL injection detected"] else [])
  let warnings :=
    (if 1000 < query.length then ["Query is very long, consider simplifying"] else []) ++
      (if anyTail matchBroadAt qu then
        ["Large result set requested, consider adding filters"] else [])
  { is_valid := foundDangerous.isEmpty && !injectionDetected qu,
    warnings := warnings, errors := errors }

/-- C5: `validate_query` marks the query invalid whenever the raw text
contains a mutating keyword (create/alter/drop/delete/insert/update,
case-insensitively) or one of the recognised injection idioms; each mutating
keyword found contributes an error naming it; and
`validate("SELECT * FROM employees; DROP TABLE employees")` is invalid with
an error naming `DROP`. -/
theorem validate_query_rejects_dangerous (query : String) :
    (∀ kw ∈ dangerous_keywords, hasSub kw.toList (pyUpper query).toList = true →
      (validate_query query).is_valid = false ∧
      ("Dangerous operation detected: " ++ kw) ∈ (validate_query query).errors) ∧
    (injectionDetected (pyUpper query).toList = true →
      (validate_query query).is_valid = false ∧
      "Potential SQL injection detected" ∈ (validate_query query).errors) ∧
    validate_query "SELECT * FROM employees; DROP TABLE employees" =
      { is_valid := false, warnings := [],
        errors := ["Dangerous operation detected: DROP"] } := by
  refine ⟨?_, ?_, by decide⟩
  · intro kw hmem hsub
    have hkw : kw ∈ dangerous_keywords.filter
        (fun kw => hasSub kw.toList (pyUpper query).toList) :=
      List.mem_filter.mpr ⟨hmem, hsub⟩
    constructor
    · simp only [validate_query, Bool.and_eq_false_iff]
      exact Or.inl (Bool.eq_false_iff.mpr
        (by simpa [List.isEmpty_iff] using List.ne_nil_of_mem hkw))
    · simp only [validate_query]
      exact List.mem_append_left _ (List.mem_map_of_mem _ hkw)
  · intro hinj
    constructor
    · simp only [validate_query, hinj]
      simp
    · simp only [validate_query, hinj, if_true]
      exact List.mem_append_right _ (List.mem_singleton_self _)

/-- Witness for C5: the spec example, with the `DROP` keyword hypothesis
discharged concretely. -/
theorem validate_query_rejects_dangerous_witness :
    (validate_query "SELECT * FROM employees; DROP TABLE employees").is_valid = false ∧
    ("Dangerous operation detected: " ++ "DROP") ∈
      (validate_query "SELECT * FROM employees; DROP TABLE employees").errors :=
  (validate_query_rejects_dangerous "SELECT * FROM employees; DROP TABLE employees").1
    "DROP" (by decide) (by decide)

/-! ## SQL generation (`QueryEngine._generate_sql_query` and helpers)

The schema parameter models `self.schema['tables']` as an association list
`table name ↦ column names` in dictionary order (only the column names are
consulted by these functions).  `_generate_top_query` indexes
`self.schema['tables'][main_table]['columns'][0]` without a guard, so it can
raise `KeyError`/`IndexError`; that partiality is modelled by `Option` there
and by `Except` in `generate_sql_query`. -/

/-- A single-quote character, for SQL literals. -/
def sq : String := "\x27"

/-- `QueryEngine._find_column_by_pattern`: first column (in dictionary order)
whose lower-cased name contains one of the patterns. -/
def find_column_by_pattern (schema : List (String × List String))
    (table : String) (patterns : List String) : Option String :=
  match List.lookup table schema with
  | none => none
  | some cols => cols.find? (fun col => patterns.any (fun p => pyContains p (pyLower col)))

/-- `QueryEngine._generate_count_query` (argument `query` is already
lower-cased by the caller, as in the source). -/
def generate_count_query (schema : List (String × List String))
    (query : String) (mainTable : String) : String :=
  let base := "SELECT COUNT(*) as count FROM " ++ mainTable
  let deptConds :=
    if pyContains "department" query then
      match find_column_by_pattern schema mainTable ["dept", "division"] with
      | some deptCol =>
          if ["engineering", "sales", "marketing", "hr"].any
              (fun d => pyContains d query) then
            match ["engineering", "sales", "marketing", "hr"].find?
                (fun d => pyContains d query) with
            | some d => [deptCol ++ " ILIKE " ++ sq ++ "%" ++ d ++ "%" ++ sq]
            | none => []
          else []
      | none => []
    else []
  let dateConds :=
    if pyContains "this year" query || pyContains "2024" query then
      match find_column_by_pattern schema mainTable ["hire", "join", "start", "created"] with
      | some dateCol => [dateCol ++ " >= " ++ sq ++ "2024-01-01" ++ sq]
      | none => []
    else []
  let conds := deptConds ++ dateConds
  if conds.isEmpty then base else base ++ " WHERE " ++ String.intercalate " AND " conds

/-- `QueryEngine._generate_average_query`. -/
def generate_average_query (schema : List (String × List String))
    (query : String) (mainTable : String) : String :=
  match find_column_by_pattern schema mainTable ["salary", "pay", "compensation"] with
  | none => "SELECT COUNT(*) as count FROM " ++ mainTable
  | some salaryCol =>
    let base := "SELECT AVG(" ++ salaryCol ++ ") as average_salary FROM " ++ mainTable
    if pyContains "department" query || pyContains "dept" query then
      match find_column_by_pattern schema mainTable ["dept", "division"] with
      | some deptCol =>
          "SELECT " ++ deptCol ++ ", AVG(" ++ salaryCol ++ ") as average_salary FROM " ++
            mainTable ++ " GROUP BY " ++ deptCol
      | none => base
    else base

/-- `QueryEngine._generate_select_query`. -/
def generate_select_query (schema : List (String × List String))
    (query : String) (mainTable : String) : String :=
  let columns := (List.lookup mainTable schema).getD []
  let sel1 :=
    match find_column_by_pattern schema mainTable ["name"] with
    | some c => [c]
    | none => []
  let sel2 :=
    if pyContains "salary" query then
      match find_column_by_pattern schema mainTable ["salary", "pay", "compensation"] with
      | some c => [c]
      | none => []
    else []
  let sel3 :=
    if pyContains "department" query then
      match find_column_by_pattern schema mainTable ["dept", "division"] with
      | some c => [c]
      | none => []
    else []
  let selAll := sel1 ++ sel2 ++ sel3
  let selCols := if selAll.isEmpty then columns.take 3 else selAll
  let base := "SELECT " ++ String.intercalate ", " selCols ++ " FROM " ++ mainTable
  let conds :=
    if pyContains "hired this year" query then
      match find_column_by_pattern schema mainTable ["hire", "join", "start"] with
      | some dateCol => [dateCol ++ " >= " ++ sq ++ "2024-01-01" ++ sq]
      | none => []
    else []
  (if conds.isEmpty then base
   else base ++ " WHERE " ++ String.intercalate " AND " conds) ++ " LIMIT 50"

/-- Decimal value of a digit run. -/
def natOfDigits (ds : List Char) : Nat :=
  ds.foldl (fun n c => n * 10 + (c.toNat - 48)) 0

/-- Regex `top\s+(\d+)` anchored at the current position. -/
def matchTopAt : List Char → Option Nat
  | 't' :: 'o' :: 'p' :: rest =>
    (match matchWsPlus rest with
     | some r =>
       let ds := r.takeWhile Char.isDigit
       if ds.isEmpty then none else some (natOfDigits ds)
     | none => none)
  | _ => none

/-- Leftmost match of `top\s+(\d+)`, as `re.search` finds it. -/
def findTopNumber : List Char → Option Nat
  | [] => none
  | c :: rest =>
    match matchTopAt (c :: rest) with
    | some n => some n
    | none => findTopNumber rest

/-- `re.search(r'top\s+(\d+)', query)` from `_generate_top_query`. -/
def parse_top_limit (query : String) : Option Nat :=
  findTopNumber query.toList

/-- `QueryEngine._generate_top_query`; `none` models the uncaught
`KeyError`/`IndexError` when no salary-like column exists and the main table
is absent from the schema (or has no columns). -/
def generate_top_query (schema : List (String × List String))
    (query : String) (mainTable : String) : Option String :=
  let limit := (parse_top_limit query).getD 5
  let nameCol := find_column_by_pattern schema mainTable ["name"]
  let salaryCol := find_column_by_pattern schema mainTable ["salary", "pay", "compensation"]
  let selAll :=
    (match nameCol with | some c => [c] | none => []) ++
      (match salaryCol with | some c => [c] | none => [])
  let selCols := if selAll.isEmpty then ["*"] else selAll
  let orderCol : Option String :=
    match salaryCol with
    | some c => some c
    | none =>
      match List.lookup mainTable schema with
      | some (c :: _) => some c
      | _ => none
  orderCol.map (fun oc =>
    "SELECT " ++ String.intercalate ", " selCols ++ " FROM " ++ mainTable ++
      " ORDER BY " ++ oc ++ " DESC LIMIT " ++ toString limit)

/-- Count trigger phrases. -/
def count_cue (ql : String) : Bool := pyContains "count" ql || pyContains "how many" ql

/-- Average trigger phrases. -/
def avg_cue (ql : String) : Bool := pyContains "average" ql || pyContains "avg" ql

/-- List/show/find trigger phrases. -/
def list_cue (ql : String) : Bool :=
  pyContains "list" ql || pyContains "show" ql || pyContains "find" ql

/-- Top/highest trigger phrases. -/
def top_cue (ql : String) : Bool := pyContains "highest" ql || pyContains "top" ql

/-- `QueryEngine._generate_sql_query`.  `.ok none` is Python's `return None`
(no table resolved); `.error` is an uncaught exception escaping from
`_generate_top_query`. -/
def generate_sql_query (schema : List (String × List String))
    (query : String) (tables : List String) : Except String (Option String) :=
  let ql := pyLower query
  match tables with
  | [] => .ok none
  | mainTable :: _ =>
    if count_cue ql then .ok (some (generate_count_query schema ql mainTable))
    else if avg_cue ql then .ok (some (generate_average_query schema ql mainTable))
    else if list_cue ql then .ok (some (generate_select_query schema ql mainTable))
    else if top_cue ql then
      match generate_top_query schema ql mainTable with
      | some s => .ok (some s)
      | none => .error "KeyError"
    else .ok (some (generate_select_query schema ql mainTable))

theorem generate_top_query_limit (schema : List (String × List String))
    (query mainTable : String) (c : String) (cs : List String)
    (hwf : List.lookup mainTable schema = some (c :: cs)) :
    ∃ pre, generate_top_query schema query mainTable =
      some (pre ++ toString ((parse_top_limit query).getD 5)) := by
  unfold generate_top_query
  cases hsal : find_column_by_pattern schema mainTable ["salary", "pay", "compensation"] with
  | some c' => exact ⟨_, rfl⟩
  | none =>
    simp only [hwf]
    exact ⟨_, rfl⟩

/-- C4: SQL generation picks exactly one strategy by trigger-phrase scan in
the fixed priority count > average > list/show/find > top/highest > default
select; the chosen strategy builds its statement only against the first table
of `suggested_tables`; generation returns none exactly when
`suggested_tables` is empty (provided the first table is well-formed, i.e.
present in the schema with at least one column — otherwise the top/highest
branch raises instead); and the top/highest strategy's row limit is the
integer parsed after `top`, defaulting to 5 when absent (illustrated on two
concrete queries). -/
theorem generate_sql_strategy_priority (schema : List (String × List String))
    (query : String) (t : String) (rest rest' : List String)
    (c : String) (cs : List String)
    (hwf : List.lookup t schema = some (c :: cs)) :
    generate_sql_query schema query [] = .ok none ∧
    (∃ s, generate_sql_query schema query (t :: rest) = .ok (some s)) ∧
    generate_sql_query schema query (t :: rest) =
      generate_sql_query schema query (t :: rest') ∧
    (count_cue (pyLower query) = true →
      generate_sql_query schema query (t :: rest) =
        .ok (some (generate_count_query schema (pyLower query) t))) ∧
    (count_cue (pyLower query) = false → avg_cue (pyLower query) = true →
      generate_sql_query schema query (t :: rest) =
        .ok (some (generate_average_query schema (pyLower query) t))) ∧
    (count_cue (pyLower query) = false → avg_cue (pyLower query) = false →
      list_cue (pyLower query) = true →
      generate_sql_query schema query (t :: rest) =
        .ok (some (generate_select_query schema (pyLower query) t))) ∧
    (count_cue (pyLower query) = false → avg_cue (pyLower query) = false →
      list_cue (pyLower query) = false → top_cue (pyLower query) = true →
      ∃ pre, generate_sql_query schema query (t :: rest) =
        .ok (some (pre ++ toString ((parse_top_limit (pyLower query)).getD 5)))) ∧
    (count_cue (pyLower query) = false → avg_cue (pyLower query) = false →
      list_cue (pyLower query) = false → top_cue (pyLower query) = false →
      generate_sql_query schema query (t :: rest) =
        .ok (some (generate_select_query schema (pyLower query) t))) ∧
    parse_top_limit "top 12 salaries" = some 12 ∧
    parse_top_limit "highest paid" = none := by
  obtain ⟨pre, hpre⟩ := generate_top_query_limit schema (pyLower query) t c cs hwf
  refine ⟨rfl, ?_, ?_, ?_, ?_, ?_, ?_, ?_, by decide, by decide⟩
  · unfold generate_sql_query
    dsimp only
    split_ifs <;>
      first
        | exact ⟨_, rfl⟩
        | (rw [hpre]; exact ⟨_, rfl⟩)
  · rfl
  · intro h1
    unfold generate_sql_query
    dsimp only
    simp [h1]
  · intro h1 h2
    unfold generate_sql_query
    dsimp only
    simp [h1, h2]
  · intro h1 h2 h3
    unfold generate_sql_query
    dsimp only
    simp [h1, h2, h3]
  · intro h1 h2 h3 h4
    unfold generate_sql_query
    dsimp only
    simp only [h1, h2, h3, h4, Bool.false_eq_true, if_false, if_true, hpre]
    exact ⟨pre, rfl⟩
  · intro h1 h2 h3 h4
    unfold generate_sql_query
    dsimp only
    simp [h1, h2, h3, h4]

/-- Witness for C4: a concrete schema and the query "top 3 employees", which
takes the top/highest branch with parsed limit 3. -/
theorem generate_sql_strategy_priority_witness :
    ∃ pre, generate_sql_query [("employees", ["id", "name", "salary"])]
        "top 3 employees" ["employees"] =
      .ok (some (pre ++ toString ((parse_top_limit (pyLower "top 3 employees")).getD 5))) :=
  (generate_sql_strategy_priority [("employees", ["id", "name", "salary"])]
      "top 3 employees" "employees" [] [] "id" ["name", "salary"]
      (by decide)).2.2.2.2.2.2.1 (by decide) (by decide) (by decide) (by decide)

/-! ## Result cache (`QueryCache`)

`OrderedDict` is an association list in recency order: head = oldest
(least-recently-used), tail = newest; keys are unique in every reachable
state.  `time.time()` is an explicit `now` parameter.  `set` on a full cache
with a fresh key pops `next(iter(cache))`; on an empty cache (only possible
with `max_size = 0`) that raises `StopIteration`, modelled by `none`. -/

/-- A cache entry (`{'value': …, 'expires_at': …, 'created_at': …}`). -/
structure CacheEntry (α : Type) where
  value : α
  expires_at : ℚ
  created_at : ℚ
  deriving Repr, DecidableEq

/-- The mutable state of a `QueryCache`. -/
structure CacheState (α : Type) where
  max_size : Nat
  default_ttl : ℚ
  cache : List (String × CacheEntry α)
  hits : Nat
  misses : Nat
  deriving Repr, DecidableEq

/-- Dictionary membership/lookup (`key in self.cache` / `self.cache[key]`). -/
def lookupKey (key : String) : List (String × CacheEntry α) → Option (CacheEntry α)
  | [] => none
  | (k, e) :: tl => if k = key then some e else lookupKey key tl

/-- Remove a key (dictionary `pop`; keys are unique in any reachable state). -/
def eraseKey (key : String) (l : List (String × CacheEntry α)) :
    List (String × CacheEntry α) :=
  l.filter (fun kv => ¬ kv.1 = key)

/-- `QueryCache.get`: miss on absent key; expired entry (`now > expires_at`)
is popped and counts as a miss; a live hit moves the key to the
most-recently-used end. -/
def cacheGet (st : CacheState α) (now : ℚ) (key : String) :
    Option α × CacheState α :=
  match lookupKey key st.cache with
  | none => (none, { st with misses := st.misses + 1 })
  | some e =>
    if e.expires_at < now then
      (none, { st with cache := eraseKey key st.cache, misses := st.misses + 1 })
    else
      (some e.value,
        { st with cache := eraseKey key st.cache ++ [(key, e)], hits := st.hits + 1 })

/-- `QueryCache.set`: evict the single oldest entry when at capacity and the
key is new, then insert/refresh at the most-recently-used end.  `none` models
the `StopIteration` Python raises when `max_size = 0` forces an eviction from
an empty dict. -/
def cacheSet (st : CacheState α) (now : ℚ) (key : String) (value : α)
    (ttl : Option ℚ) : Option (CacheState α) :=
  let t := ttl.getD st.default_ttl
  let e : CacheEntry α := { value := value, expires_at := now + t, created_at := now }
  if st.max_size ≤ st.cache.length ∧ (lookupKey key st.cache).isNone then
    match st.cache with
    | [] => none
    | _ :: rest => some { st with cache := rest ++ [(key, e)] }
  else
    some { st with cache := eraseKey key st.cache ++ [(key, e)] }

/-- `QueryCache.delete`. -/
def cacheDelete (st : CacheState α) (key : String) : Bool × CacheState α :=
  match lookupKey key st.cache with
  | some _ => (true, { st with cache := eraseKey key st.cache })
  | none => (false, st)

/-- `QueryCache.clear`. -/
def cacheClear (st : CacheState α) : CacheState α :=
  { st with cache := [], hits := 0, misses := 0 }

/-- `QueryCache.cleanup_expired`: collect the expired keys, then pop each in
turn; returns the number removed. -/
def cleanup_expired (st : CacheState α) (now : ℚ) : Nat × CacheState α :=
  let expiredKeys :=
    (st.cache.filter (fun kv => kv.2.expires_at < now)).map (fun kv => kv.1)
  (expiredKeys.length,
    { st with cache := expiredKeys.foldl (fun acc k => eraseKey k acc) st.cache })

theorem foldl_eraseKey (keys : List String) (l : List (String × CacheEntry α)) :
    keys.foldl (fun acc k => eraseKey k acc) l =
      l.filter (fun kv => ¬ kv.1 ∈ keys) := by
  induction keys generalizing l with
  | nil => simp
  | cons k ks ih =>
    simp only [List.foldl_cons]
    rw [ih]
    simp only [eraseKey, List.filter_filter]
    refine List.filter_congr ?_
    intro kv _
    by_cases h1 : kv.1 = k <;> by_cases h2 : kv.1 ∈ ks <;>
      simp [h1, h2, List.mem_cons]

theorem lookupKey_eraseKey_self (key : String) (l : List (String × CacheEntry α)) :
    lookupKey key (eraseKey key l) = none := by
  induction l with
  | nil => rfl
  | cons hd tl ih =>
    obtain ⟨k, e⟩ := hd
    by_cases h : k = key
    · simpa [eraseKey, h] using ih
    · simpa [eraseKey, lookupKey, h] using ih

theorem lookupKey_eraseKey_other (key k' : String) (l : List (String × CacheEntry α))
    (hne : ¬ k' = key) : lookupKey k' (eraseKey key l) = lookupKey k' l := by
  induction l with
  | nil => rfl
  | cons hd tl ih =>
    obtain ⟨k, e⟩ := hd
    by_cases h : k = key
    · have h2 : ¬ key = k' := fun hh => hne hh.symm
      simpa [eraseKey, lookupKey, h, h2] using ih
    · by_cases h2 : k = k'
      · simp [eraseKey, lookupKey, h, h2, hne]
      · simpa [eraseKey, lookupKey, h, h2] using ih

theorem lookupKey_append_split (x : String) (l1 l2 : List (String × CacheEntry α)) :
    lookupKey x (l1 ++ l2) =
      match lookupKey x l1 with
      | some v => some v
      | none => lookupKey x l2 := by
  induction l1 with
  | nil => simp [lookupKey]
  | cons hd tl ih =>
    obtain ⟨k, e⟩ := hd
    by_cases h : k = x
    · simp [lookupKey, h]
    · simpa [lookupKey, h] using ih

theorem nodup_keys_eq {l : List (String × CacheEntry α)}
    (hnd : (l.map Prod.fst).Nodup) {a b : String × CacheEntry α}
    (ha : a ∈ l) (hb : b ∈ l) (hab : a.1 = b.1) : a = b := by
  induction l with
  | nil => simp at ha
  | cons hd tl ih =>
    simp only [List.map_cons, List.nodup_cons] at hnd
    rcases List.mem_cons.mp ha with ha' | ha' <;> rcases List.mem_cons.mp hb with hb' | hb'
    · exact ha'.trans hb'.symm
    · exfalso
      apply hnd.1
      have hmem : b.1 ∈ List.map Prod.fst tl := List.mem_map_of_mem Prod.fst hb'
      rw [← ha', hab]
      exact hmem
    · exfalso
      apply hnd.1
      have hmem : a.1 ∈ List.map Prod.fst tl := List.mem_map_of_mem Prod.fst ha'
      rw [← hb', ← hab]
      exact hmem
    · exact ih hnd.2 ha' hb'

/-- C2: a present key whose `expires_at` lies in the past at the time of the
`get` is treated as a miss (`None`) and is evicted at that `get`, leaving all
other keys untouched; a key set with an already-elapsed TTL is never returned
by the immediately following `get`; and `cleanup_expired` removes exactly the
currently-expired entries (and reports their number). -/
theorem cache_expired_get_miss {α : Type} :
    (∀ (st : CacheState α) (now : ℚ) (key : String) (e : CacheEntry α),
      lookupKey key st.cache = some e → e.expires_at < now →
      (cacheGet st now key).1 = none ∧
      lookupKey key ((cacheGet st now key).2).cache = none ∧
      (∀ k', ¬ k' = key →
        lookupKey k' ((cacheGet st now key).2).cache = lookupKey k' st.cache)) ∧
    (∀ (st : CacheState α) (now1 now2 : ℚ) (key : String) (v : α) (ttl : Option ℚ)
      (st' : CacheState α),
      cacheSet st now1 key v ttl = some st' →
      now1 + ttl.getD st.default_ttl < now2 →
      (cacheGet st' now2 key).1 = none) ∧
    (∀ (st : CacheState α) (now : ℚ), (st.cache.map Prod.fst).Nodup →
      ((cleanup_expired st now).2).cache =
        st.cache.filter (fun kv => ¬ kv.2.expires_at < now) ∧
      (cleanup_expired st now).1 =
        (st.cache.filter (fun kv => kv.2.expires_at < now)).length) := by
  refine ⟨?_, ?_, ?_⟩
  · intro st now key e hlk hex
    have hres : cacheGet st now key =
        (none, { st with cache := eraseKey key st.cache, misses := st.misses + 1 }) := by
      simp [cacheGet, hlk, hex]
    rw [hres]
    exact ⟨rfl, lookupKey_eraseKey_self key st.cache,
      fun k' hk' => lookupKey_eraseKey_other key k' st.cache hk'⟩
  · intro st now1 now2 key v ttl st' hset hlate
    have hlk : lookupKey key st'.cache =
        some { value := v, expires_at := now1 + ttl.getD st.default_ttl,
               created_at := now1 } := by
      simp only [cacheSet] at hset
      split_ifs at hset with hcond
      · rcases hcache : st.cache with _ | ⟨hd, rest⟩
        · rw [hcache] at hset
          exact absurd hset (by simp)
        · rw [hcache] at hset hcond
          obtain ⟨k0, e0⟩ := hd
          injection hset with hst
          rw [← hst]
          have hrest : lookupKey key rest = none := by
            have h0 := hcond.2
            by_cases hk0 : k0 = key <;>
              simp_all [lookupKey, Option.isNone_iff_eq_none]
          rw [lookupKey_append_split, hrest]
          simp [lookupKey]
      · injection hset with hst
        rw [← hst]
        rw [lookupKey_append_split, lookupKey_eraseKey_self]
        simp [lookupKey]
    simp only [cacheGet, hlk]
    rw [if_pos hlate]
  · intro st now hnd
    constructor
    · simp only [cleanup_expired]
      rw [foldl_eraseKey]
      refine List.filter_congr ?_
      intro kv hkv
      have hiff : (kv.1 ∈ (st.cache.filter
          (fun kv => kv.2.expires_at < now)).map (fun kv => kv.1)) ↔
          kv.2.expires_at < now := by
        constructor
        · intro hmem
          obtain ⟨kv', hkv', hkey⟩ := List.mem_map.mp hmem
          obtain ⟨hkv'mem, hkv'exp⟩ := List.mem_filter.mp hkv'
          have hkveq : kv' = kv := nodup_keys_eq hnd hkv'mem hkv hkey
          simpa [hkveq] using hkv'exp
        · intro hexp
          exact List.mem_map.mpr ⟨kv, List.mem_filter.mpr ⟨hkv, by simpa using hexp⟩, rfl⟩
      by_cases hexp : kv.2.expires_at < now <;> simp [hiff, hexp]
    · simp [cleanup_expired]

/-- Witness for C2: a one-entry cache whose entry expired at time 5 is read
at time 6. -/
theorem cache_expired_get_miss_witness :
    ((cacheGet (α := Nat)
        { max_size := 2, default_ttl := 10,
          cache := [("k", { value := 7, expires_at := 5, created_at := 0 })],
          hits := 0, misses := 0 } 6 "k").1 = none ∧
      lookupKey "k" ((cacheGet (α := Nat)
        { max_size := 2, default_ttl := 10,
          cache := [("k", { value := 7, expires_at := 5, created_at := 0 })],
          hits := 0, misses := 0 } 6 "k").2).cache = none ∧
      (∀ k', ¬ k' = "k" →
        lookupKey k' ((cacheGet (α := Nat)
          { max_size := 2, default_ttl := 10,
            cache := [("k", { value := 7, expires_at := 5, created_at := 0 })],
            hits := 0, misses := 0 } 6 "k").2).cache =
        lookupKey k'
          [("k", ({ value := 7, expires_at := 5, created_at := 0 } : CacheEntry Nat))])) :=
  cache_expired_get_miss.1
    { max_size := 2, default_ttl := 10,
      cache := [("k", { value := 7, expires_at := 5, created_at := 0 })],
      hits := 0, misses := 0 } 6 "k"
    { value := 7, expires_at := 5, created_at := 0 } (by decide) (by decide)

theorem length_eraseKey_lt {key : String} {l : List (String × CacheEntry α)}
    {e : CacheEntry α} (h : lookupKey key l = some e) :
    (eraseKey key l).length < l.length := by
  induction l with
  | nil => simp [lookupKey] at h
  | cons hd tl ih =>
    obtain ⟨k, e0⟩ := hd
    by_cases hk : k = key
    · rw [eraseKey, List.filter_cons_of_neg (by simp [hk])]
      exact lt_of_le_of_lt (List.length_filter_le _ _) (by simp)
    · rw [eraseKey, List.filter_cons_of_pos (by simp [hk])]
      have h' : lookupKey key tl = some e := by simpa [lookupKey, hk] using h
      have hlt := ih h'
      rw [eraseKey] at hlt
      simpa using Nat.succ_lt_succ hlt

theorem eraseKey_of_lookupKey_none {key : String} {l : List (String × CacheEntry α)}
    (h : lookupKey key l = none) : eraseKey key l = l := by
  induction l with
  | nil => rfl
  | cons hd tl ih =>
    obtain ⟨k, e⟩ := hd
    by_cases hk : k = key
    · simp [lookupKey, hk] at h
    · have h' : lookupKey key tl = none := by simpa [lookupKey, hk] using h
      simpa [eraseKey, hk] using ih h'

theorem lookupKey_eq_none_of_not_mem {key : String} {l : List (String × CacheEntry α)}
    (h : ¬ key ∈ l.map Prod.fst) : lookupKey key l = none := by
  induction l with
  | nil => rfl
  | cons hd tl ih =>
    obtain ⟨k, e⟩ := hd
    simp only [List.map_cons, List.mem_cons] at h
    push_neg at h
    have hk : ¬ k = key := fun hh => h.1 hh.symm
    simp [lookupKey, hk, ih h.2]

theorem map_fst_eraseKey (key : String) (l : List (String × CacheEntry α)) :
    (eraseKey key l).map Prod.fst = (l.map Prod.fst).filter (fun k => ¬ k = key) := by
  induction l with
  | nil => rfl
  | cons hd tl ih =>
    obtain ⟨k, e⟩ := hd
    by_cases hk : k = key <;>
      simp only [eraseKey, List.filter_cons, List.map_cons, hk] <;>
      simpa [eraseKey] using ih

/-- One API call against a `QueryCache`, with its wall-clock instant. -/
inductive CacheOp (α : Type) where
  | get (now : ℚ) (key : String)
  | set (now : ℚ) (key : String) (value : α) (ttl : Option ℚ)
  | del (key : String)
  | clear
  | cleanup (now : ℚ)

/-- Run one cache operation (state part only). -/
def runOp (st : CacheState α) : CacheOp α → Option (CacheState α)
  | .get now key => some (cacheGet st now key).2
  | .set now key v ttl => cacheSet st now key v ttl
  | .del key => some (cacheDelete st key).2
  | .clear => some (cacheClear st)
  | .cleanup now => some (cleanup_expired st now).2

/-- Run a sequence of cache operations. -/
def runOps (st : CacheState α) : List (CacheOp α) → Option (CacheState α)
  | [] => some st
  | op :: ops =>
    match runOp st op with
    | some st' => runOps st' ops
    | none => none

theorem runOps_append (st : CacheState α) (l1 l2 : List (CacheOp α)) :
    runOps st (l1 ++ l2) =
      match runOps st l1 with
      | some st' => runOps st' l2
      | none => none := by
  induction l1 generalizing st with
  | nil => simp [runOps]
  | cons op ops ih =>
    simp only [List.cons_append, runOps]
    cases runOp st op <;> simp [ih]

theorem runOp_preserves (st : CacheState α) (op : CacheOp α)
    (hmax : 1 ≤ st.max_size) (hlen : st.cache.length ≤ st.max_size) :
    ∃ st', runOp st op = some st' ∧ st'.cache.length ≤ st.max_size ∧
      st'.max_size = st.max_size := by
  cases op with
  | get now key =>
    have hres : ((cacheGet st now key).2.max_size = st.max_size) ∧
        (cacheGet st now key).2.cache.length ≤ st.max_size := by
      rcases hlk : lookupKey key st.cache with _ | e
      · have h : cacheGet st now key = (none, { st with misses := st.misses + 1 }) := by
          simp [cacheGet, hlk]
        rw [h]
        exact ⟨rfl, hlen⟩
      · by_cases hex : e.expires_at < now
        · have h : cacheGet st now key =
              (none,
                { st with
                  cache := eraseKey key st.cache
                  misses := st.misses + 1 }) := by
            simp [cacheGet, hlk, hex]
          rw [h]
          exact ⟨rfl, le_trans (List.length_filter_le _ _) hlen⟩
        · have h : cacheGet st now key =
              (some e.value,
                { st with
                  cache := eraseKey key st.cache ++ [(key, e)]
                  hits := st.hits + 1 }) := by
            simp [cacheGet, hlk, hex]
          rw [h]
          refine ⟨rfl, ?_⟩
          have hlt := length_eraseKey_lt hlk
          simp only [List.length_append, List.length_cons, List.length_nil]
          omega
    exact ⟨(cacheGet st now key).2, rfl, hres.2, hres.1⟩
  | set now key v ttl =>
    simp only [runOp, cacheSet]
    by_cases hcond : st.max_size ≤ st.cache.length ∧ (lookupKey key st.cache).isNone
    · rw [if_pos hcond]
      rcases hcache : st.cache with _ | ⟨hd, rest⟩
      · rw [hcache] at hcond
        simp at hcond
        omega
      · refine ⟨_, rfl, ?_, rfl⟩
        rw [hcache] at hlen
        simpa using hlen
    · rw [if_neg hcond]
      refine ⟨_, rfl, ?_, rfl⟩
      simp only [List.length_append, List.length_cons, List.length_nil]
      by_cases hnone : (lookupKey key st.cache).isNone
      · have hfull : ¬ st.max_size ≤ st.cache.length := fun hf => hcond ⟨hf, hnone⟩
        have hle : (eraseKey key st.cache).length ≤ st.cache.length :=
          List.length_filter_le _ _
        omega
      · rcases hlk : lookupKey key st.cache with _ | e
        · rw [hlk] at hnone
          simp at hnone
        · have hlt := length_eraseKey_lt hlk
          omega
  | del key =>
    have hres : ((cacheDelete st key).2.max_size = st.max_size) ∧
        (cacheDelete st key).2.cache.length ≤ st.max_size := by
      rcases hlk : lookupKey key st.cache with _ | e
      · have h : cacheDelete st key = (false, st) := by simp [cacheDelete, hlk]
        rw [h]
        exact ⟨rfl, hlen⟩
      · have h : cacheDelete st key =
            (true, { st with cache := eraseKey key st.cache }) := by
          simp [cacheDelete, hlk]
        rw [h]
        exact ⟨rfl, le_trans (List.length_filter_le _ _) hlen⟩
    exact ⟨(cacheDelete st key).2, rfl, hres.2, hres.1⟩
  | clear =>
    exact ⟨_, rfl, by simp [cacheClear], rfl⟩
  | cleanup now =>
    refine ⟨_, rfl, ?_, rfl⟩
    unfold cleanup_expired
    dsimp only
    rw [foldl_eraseKey]
    exact le_trans (List.length_filter_le _ _) hlen

theorem runOps_preserves (ops : List (CacheOp α)) (st : CacheState α)
    (hmax : 1 ≤ st.max_size) (hlen : st.cache.length ≤ st.max_size) :
    ∃ st', runOps st ops = some st' ∧ st'.cache.length ≤ st'.max_size ∧
      st'.max_size = st.max_size := by
  induction ops generalizing st with
  | nil => exact ⟨st, rfl, hlen, rfl⟩
  | cons op ops ih =>
    obtain ⟨st1, h1, hl1, hm1⟩ := runOp_preserves st op hmax hlen
    obtain ⟨st2, h2, hl2, hm2⟩ := ih st1 (hm1 ▸ hmax) (hm1 ▸ hl1)
    exact ⟨st2, by simp [runOps, h1, h2], hl2, hm2.trans hm1⟩

theorem runSets_fresh (now : ℚ) (v : α) (ks : List String) (st : CacheState α)
    (hnd : ks.Nodup)
    (hfresh : ∀ k ∈ ks, lookupKey k st.cache = none)
    (hcap : st.cache.length + ks.length ≤ st.max_size) :
    ∃ st', runOps st (ks.map (fun k => CacheOp.set now k v none)) = some st' ∧
      st'.cache = st.cache ++ ks.map (fun k =>
        (k, { value := v, expires_at := now + st.default_ttl, created_at := now })) ∧
      st'.max_size = st.max_size ∧ st'.default_ttl = st.default_ttl := by
  induction ks generalizing st with
  | nil => exact ⟨st, rfl, by simp, rfl, rfl⟩
  | cons k ks ih =>
    have hnotfull : ¬(st.max_size ≤ st.cache.length ∧ (lookupKey k st.cache).isNone) := by
      rintro ⟨hfull, -⟩
      simp only [List.length_cons] at hcap
      omega
    have hset : cacheSet st now k v none =
        some { st with cache := st.cache ++
          [(k, { value := v, expires_at := now + st.default_ttl, created_at := now })] } := by
      simp only [cacheSet]
      rw [if_neg hnotfull,
        eraseKey_of_lookupKey_none (hfresh k (List.mem_cons_self k ks))]
      rfl
    set e : CacheEntry α :=
      { value := v, expires_at := now + st.default_ttl, created_at := now } with he
    obtain ⟨st', hrun, hcache, hmax', hdtl⟩ := ih
      { st with cache := st.cache ++ [(k, e)] }
      (List.Nodup.of_cons hnd)
      (by
        intro k' hk'
        rw [lookupKey_append_split, hfresh k' (List.mem_cons_of_mem k hk')]
        have hkk : ¬ k = k' := by
          rintro rfl
          exact (List.nodup_cons.mp hnd).1 hk'
        simp [lookupKey, hkk])
      (by
        simp only [List.length_append, List.length_cons, List.length_nil]
        simp only [List.length_cons] at hcap
        omega)
    refine ⟨st', ?_, ?_, hmax', hdtl⟩
    · simp only [List.map_cons, runOps, runOp, hset]
      exact hrun
    · rw [hcache]
      simp [he]

/-- C3: at capacity, a `set` with a fresh key evicts exactly the single
least-recently-used entry (the head of the recency order) and no other; a
live `get` hit and every `set` move the touched key to the
most-recently-used end; `size ≤ max_size` is preserved by every sequence of
get/set/delete/clear/cleanup operations (for `max_size ≥ 1`); and inserting
`capacity + 1` distinct keys into an empty cache evicts exactly the
least-recently-used (first-inserted) one. -/
theorem cache_lru_eviction {α : Type} :
    (∀ (st : CacheState α) (now : ℚ) (key : String) (v : α) (ttl : Option ℚ)
      (k0 : String) (e0 : CacheEntry α) (rest : List (String × CacheEntry α)),
      st.cache = (k0, e0) :: rest →
      st.max_size ≤ st.cache.length → lookupKey key st.cache = none →
      ∃ st', cacheSet st now key v ttl = some st' ∧
        st'.cache.map Prod.fst = (st.cache.map Prod.fst).tail ++ [key]) ∧
    (∀ (st : CacheState α) (now : ℚ) (key : String) (e : CacheEntry α),
      lookupKey key st.cache = some e → ¬ e.expires_at < now →
      ((cacheGet st now key).2).cache.map Prod.fst =
        ((st.cache.map Prod.fst).filter (fun k => ¬ k = key)) ++ [key]) ∧
    (∀ (st : CacheState α) (now : ℚ) (key : String) (v : α) (ttl : Option ℚ)
      (st' : CacheState α), cacheSet st now key v ttl = some st' →
      ∃ ks, st'.cache.map Prod.fst = ks ++ [key]) ∧
    (∀ (st : CacheState α), 1 ≤ st.max_size → st.cache.length ≤ st.max_size →
      ∀ ops : List (CacheOp α), ∃ st', runOps st ops = some st' ∧
        st'.cache.length ≤ st'.max_size ∧ st'.max_size = st.max_size) ∧
    (∀ (n : Nat) (dttl now : ℚ) (v : α) (ks : List String),
      1 ≤ n → ks.Nodup → ks.length = n + 1 →
      ∃ st', runOps
          { max_size := n
            default_ttl := dttl
            cache := []
            hits := 0
            misses := 0 }
          (ks.map (fun k => CacheOp.set now k v none)) = some st' ∧
        st'.cache.map Prod.fst = ks.tail) := by
  refine ⟨?_, ?_, ?_, ?_, ?_⟩
  · intro st now key v ttl k0 e0 rest hcache hfull hnone
    have hset : cacheSet st now key v ttl =
        some
          { st with
            cache := rest ++
              [(key,
                { value := v
                  expires_at := now + ttl.getD st.default_ttl
                  created_at := now })] } := by
      simp only [cacheSet]
      rw [if_pos ⟨hfull, by simp [hnone]⟩, hcache]
    refine ⟨_, hset, ?_⟩
    rw [hcache]
    simp
  · intro st now key e hlk hex
    have h : cacheGet st now key =
        (some e.value,
          { st with
            cache := eraseKey key st.cache ++ [(key, e)]
            hits := st.hits + 1 }) := by
      simp [cacheGet, hlk, hex]
    rw [h]
    simp only [List.map_append, map_fst_eraseKey]
    rfl
  · intro st now key v ttl st' hset
    simp only [cacheSet] at hset
    split_ifs at hset with hcond
    · rcases hcache : st.cache with _ | ⟨hd, rest⟩
      · rw [hcache] at hset
        exact absurd hset (by simp)
      · rw [hcache] at hset
        injection hset with hst
        rw [← hst]
        exact ⟨rest.map Prod.fst, by simp⟩
    · injection hset with hst
      rw [← hst]
      exact ⟨(eraseKey key st.cache).map Prod.fst, by simp⟩
  · intro st hmax hlen ops
    exact runOps_preserves ops st hmax hlen
  · intro n dttl now v ks hn hnd hlen
    have hne : ks ≠ [] := by
      intro h
      rw [h] at hlen
      simp at hlen
    obtain ⟨init, klast, hks⟩ : ∃ init klast, ks = init ++ [klast] :=
      ⟨ks.dropLast, ks.getLast hne, (List.dropLast_append_getLast hne).symm⟩
    subst hks
    have hinitlen : init.length = n := by simpa using hlen
    obtain ⟨hndinit, -, hdisj⟩ := List.nodup_append.mp hnd
    have hnotmem : ¬ klast ∈ init := fun hmem => hdisj hmem (List.mem_singleton_self _)
    obtain ⟨stA, hrunA, hcacheA, hmaxA, hdtlA⟩ :=
      runSets_fresh now v init
        { max_size := n
          default_ttl := dttl
          cache := []
          hits := 0
          misses := 0 }
        hndinit (fun k _ => rfl) (by simp [hinitlen])
    rcases hinit : init with _ | ⟨i0, irest⟩
    · rw [hinit] at hinitlen
      simp at hinitlen
      omega
    · rw [hinit] at hrunA hcacheA hnotmem
      have hsetlast : cacheSet stA now klast v none =
          some
            { stA with
              cache :=
                (irest.map (fun k =>
                  (k, ({ value := v
                         expires_at := now + dttl
                         created_at := now } : CacheEntry α)))) ++
                [(klast,
                  { value := v
                    expires_at := now + stA.default_ttl
                    created_at := now })] } := by
        have hlkA : lookupKey klast stA.cache = none := by
          apply lookupKey_eq_none_of_not_mem
          rw [hcacheA]
          simp only [List.nil_append, List.map_map]
          intro hmem
          apply hnotmem
          simpa using hmem
        have hlenA : stA.cache.length = n := by
          rw [hcacheA]
          have : (i0 :: irest).length = n := hinit ▸ hinitlen
          simpa using this
        simp only [cacheSet]
        rw [if_pos ⟨by rw [hlenA, hmaxA], by simp [hlkA]⟩]
        rw [hcacheA, hdtlA]
        simp
      refine ⟨{ stA with
          cache :=
            (irest.map (fun k =>
              (k, ({ value := v
                     expires_at := now + dttl
                     created_at := now } : CacheEntry α)))) ++
            [(klast,
              { value := v
                expires_at := now + stA.default_ttl
                created_at := now })] }, ?_, ?_⟩
      · rw [List.map_append, runOps_append, hrunA]
        simp only [List.map_cons, List.map_nil, runOps, runOp, hsetlast]
      · have hid : (Prod.fst ∘ fun k =>
            (k, ({ value := v
                   expires_at := now + dttl
                   created_at := now } : CacheEntry α))) =
            (id : String → String) := rfl
        simp [hid]

/-- Witness for C3: inserting three distinct keys into an empty cache of
capacity 2 evicts exactly the first-inserted key "a". -/
theorem cache_lru_eviction_witness :
    ∃ st', runOps
        { max_size := 2
          default_ttl := 1
          cache := ([] : List (String × CacheEntry Nat))
          hits := 0
          misses := 0 }
        ((["a", "b", "c"]).map (fun k => CacheOp.set 0 k (0 : Nat) none)) = some st' ∧
      st'.cache.map Prod.fst = (["a", "b", "c"]).tail :=
  (cache_lru_eviction (α := Nat)).2.2.2.2 2 1 0 0 ["a", "b", "c"]
    (by decide) (by decide) (by decide)

/-! ## Document chunking (`DocumentProcessor._chunk_by_paragraphs`)

Text is `List Char` here to allow character-level induction.  `str.strip` is
`pyStrip`, `content.split('\n\n')` is `splitNN` (leftmost, non-overlapping,
exactly Python's `str.split` on a two-character separator).  Chunks carry the
constant type tag `'paragraph_section'` and `dynamic_chunking` only adds
positional metadata, so a chunk is represented by its text. -/

/-- Python `str.lstrip()` (ASCII whitespace). -/
def lstrip (s : List Char) : List Char := s.dropWhile pySpace

/-- Python `str.rstrip()` (ASCII whitespace). -/
def rstrip (s : List Char) : List Char := (s.reverse.dropWhile pySpace).reverse

/-- Python `str.strip()` (ASCII whitespace). -/
def pyStrip (s : List Char) : List Char := rstrip (lstrip s)

/-- Python `content.split('\n\n')`: leftmost, non-overlapping split. -/
def splitNN : List Char → List (List Char)
  | [] => [[]]
  | '\n' :: '\n' :: rest => [] :: splitNN rest
  | c :: rest =>
    match splitNN rest with
    | [] => [[c]]
    | s :: ss => (c :: s) :: ss

/-- `[p.strip() for p in content.split('\n\n') if p.strip()]`. -/
def paragraphs (content : List Char) : List (List Char) :=
  ((splitNN content).map pyStrip).filter (fun p => ¬ p = [])

/-- The paragraph separator re-appended after each accumulated paragraph. -/
def nn : List Char := ['\n', '\n']

/-- `self.base_chunk_size` (512). -/
def base_chunk_size : Nat := 512

/-- `self.chunk_overlap` (50). -/
def chunk_overlap : Nat := 50

/-- The accumulation loop of `_chunk_by_paragraphs`: cut when adding the next
paragraph would exceed the budget, carrying the trailing 50-character overlap
(empty unless the current chunk is strictly longer than 50 characters) into
the next chunk; emitted chunks are stripped. -/
def cbpGo (current : List Char) : List (List Char) → List (List Char)
  | [] => if pyStrip current = [] then [] else [pyStrip current]
  | p :: ps =>
    if base_chunk_size < current.length + p.length ∧ ¬ current = [] then
      pyStrip current ::
        cbpGo ((if chunk_overlap < current.length then
          current.drop (current.length - chunk_overlap) else []) ++ p ++ nn) ps
    else
      cbpGo (current ++ p ++ nn) ps

/-- `DocumentProcessor._chunk_by_paragraphs` (chunk texts, in order). -/
def chunk_by_paragraphs (content : List Char) : List (List Char) :=
  cbpGo [] (paragraphs content)

/-- C6 (counterexample): for the input `"a\n\n\nb"` paragraph chunking
produces the single chunk `"a\n\nb"`.  With one chunk there is no overlap
region to remove, so the only reconstruction the claim allows is the chunk
itself, which differs from the original text (the run of three newlines was
normalised to the two-newline separator); since removing overlap only ever
shortens text, no overlap-removal can recover the longer original. -/
theorem chunking_reconstruction_counterexample :
    chunk_by_paragraphs ("a\n\n\nb".toList) = ["a\n\nb".toList] ∧
    "a\n\nb".toList ≠ "a\n\n\nb".toList ∧
    ("a\n\nb".toList).length < ("a\n\n\nb".toList).length := by
  decide

/-- A paragraph as produced by `paragraphs`: nonempty and stripped on both
sides. -/
def CleanPara (p : List Char) : Prop :=
  ¬ p = [] ∧ lstrip p = p ∧ rstrip p = p

theorem dropWhile_head_false {p : Char → Bool} {l : List Char}
    (h : l.dropWhile p = l) : ∀ c cs, l = c :: cs → p c = false := by
  rintro c cs rfl
  by_cases hp : p c
  · rw [List.dropWhile_cons, if_pos hp] at h
    have hle := (List.dropWhile_sublist (l := cs) p).length_le
    have := congrArg List.length h
    simp at this
    omega
  · simpa using hp

theorem lstrip_head_false {s : List Char} {c : Char} {cs : List Char}
    (h : lstrip s = c :: cs) : pySpace c = false := by
  induction s with
  | nil => simp [lstrip] at h
  | cons a as ih =>
    rw [lstrip, List.dropWhile_cons] at h
    split_ifs at h with ha
    · exact ih h
    · injection h with h1 h2
      subst h1
      simpa using ha

theorem lstrip_idem (s : List Char) : lstrip (lstrip s) = lstrip s := by
  rcases hd : lstrip s with _ | ⟨c, cs⟩
  · rfl
  · rw [lstrip, List.dropWhile_cons, if_neg (by simp [lstrip_head_false hd])]

theorem rstrip_prefix (z : List Char) : ∃ w, z = rstrip z ++ w := by
  refine ⟨(z.reverse.takeWhile pySpace).reverse, ?_⟩
  have h := List.takeWhile_append_dropWhile pySpace z.reverse
  have h2 := congrArg List.reverse h
  simp only [List.reverse_append, List.reverse_reverse] at h2
  rw [rstrip]
  exact h2.symm

theorem lstrip_rstrip {z : List Char} (hz : lstrip z = z) :
    lstrip (rstrip z) = rstrip z := by
  rcases hrs : rstrip z with _ | ⟨c, cs⟩
  · rfl
  · obtain ⟨w, hw⟩ := rstrip_prefix z
    rw [hrs] at hw
    have hc : pySpace c = false := by
      refine dropWhile_head_false (p := pySpace) (l := z) hz c (cs ++ w) ?_
      simpa using hw
    rw [lstrip, List.dropWhile_cons, if_neg (by simp [hc])]

theorem rstrip_idem (s : List Char) : rstrip (rstrip s) = rstrip s := by
  have h1 : (rstrip s).reverse = s.reverse.dropWhile pySpace := by
    simp [rstrip]
  show ((rstrip s).reverse.dropWhile pySpace).reverse = rstrip s
  rw [h1]
  have h2 : (s.reverse.dropWhile pySpace).dropWhile pySpace =
      s.reverse.dropWhile pySpace := by
    rcases hd : s.reverse.dropWhile pySpace with _ | ⟨c, cs⟩
    · rfl
    · have hc : pySpace c = false := lstrip_head_false (s := s.reverse) hd
      rw [List.dropWhile_cons, if_neg (by simp [hc])]
  rw [h2, ← h1, List.reverse_reverse]

theorem paragraphs_clean (content : List Char) :
    ∀ q ∈ paragraphs content, CleanPara q := by
  intro q hq
  simp only [paragraphs, List.mem_filter, List.mem_map, decide_not] at hq
  obtain ⟨⟨r, -, rfl⟩, hne⟩ := hq
  refine ⟨by simpa using hne, ?_, ?_⟩
  · show lstrip (rstrip (lstrip r)) = rstrip (lstrip r)
    exact lstrip_rstrip (lstrip_idem r)
  · exact rstrip_idem _

theorem occursIn_lstrip {c : Char} {cs : List Char} (hc : pySpace c = false)
    {t : List Char} (h : ∃ u v, t = u ++ (c :: cs) ++ v) :
    ∃ u v, lstrip t = u ++ (c :: cs) ++ v := by
  obtain ⟨u, v, rfl⟩ := h
  induction u with
  | nil =>
    refine ⟨[], v, ?_⟩
    simp only [List.nil_append, List.cons_append]
    rw [lstrip, List.dropWhile_cons, if_neg (by simp [hc])]
  | cons a u ih =>
    by_cases ha : pySpace a
    · have hstep : lstrip ((a :: u) ++ (c :: cs) ++ v) =
          lstrip (u ++ (c :: cs) ++ v) := by
        simp only [List.cons_append]
        rw [lstrip, List.dropWhile_cons, if_pos ha]
        rfl
      rw [hstep]
      exact ih
    · refine ⟨a :: u, v, ?_⟩
      simp only [List.cons_append]
      rw [lstrip, List.dropWhile_cons, if_neg ha]

theorem occursIn_reverse_exact {p t : List Char} (h : ∃ u v, t = u ++ p ++ v) :
    ∃ u v, t.reverse = u ++ p.reverse ++ v := by
  obtain ⟨u, v, rfl⟩ := h
  refine ⟨v.reverse, u.reverse, ?_⟩
  simp [List.reverse_append, List.append_assoc]

theorem occursIn_rstrip {p t : List Char} (hne : ¬ p = []) (hr : rstrip p = p)
    (h : ∃ u v, t = u ++ p ++ v) : ∃ u v, rstrip t = u ++ p ++ v := by
  rcases hrev : p.reverse with _ | ⟨c, cs⟩
  · exfalso
    apply hne
    have := congrArg List.reverse hrev
    simpa using this
  · have hdrop : p.reverse.dropWhile pySpace = p.reverse := by
      have := congrArg List.reverse hr
      simp only [rstrip, List.reverse_reverse] at this
      exact this
    have hc : pySpace c = false := dropWhile_head_false hdrop c cs hrev
    have h1 := occursIn_reverse_exact h
    rw [hrev] at h1
    obtain ⟨u, v, huv⟩ := occursIn_lstrip hc h1
    refine ⟨v.reverse, u.reverse, ?_⟩
    have hrt : rstrip t = (lstrip t.reverse).reverse := rfl
    have hcs : (c :: cs).reverse = p := by
      rw [← hrev, List.reverse_reverse]
    rw [hrt, huv, List.reverse_append, List.reverse_append, hcs]
    simp only [List.append_assoc]

theorem occursIn_strip {p t : List Char} (hcp : CleanPara p)
    (h : ∃ u v, t = u ++ p ++ v) : ∃ u v, pyStrip t = u ++ p ++ v := by
  obtain ⟨hne, hl, hr⟩ := hcp
  obtain ⟨c, cs, rfl⟩ : ∃ c cs, p = c :: cs := by
    cases p with
    | nil => exact absurd rfl hne
    | cons c cs => exact ⟨c, cs, rfl⟩
  have hc : pySpace c = false := by
    refine dropWhile_head_false (p := pySpace) (l := c :: cs) hl c cs rfl
  have h1 := occursIn_lstrip hc h
  exact occursIn_rstrip hne hr h1

theorem cbpGo_covers (ps : List (List Char)) (current : List Char)
    (hps : ∀ q ∈ ps, CleanPara q) (p : List Char)
    (hp : p ∈ ps ∨ (CleanPara p ∧ ∃ u v, current = u ++ p ++ v)) :
    ∃ c ∈ cbpGo current ps, ∃ u v, c = u ++ p ++ v := by
  induction ps generalizing current with
  | nil =>
    rcases hp with h | ⟨hcp, hocc⟩
    · simp at h
    · have hocc2 := occursIn_strip hcp hocc
      have hne : ¬ pyStrip current = [] := by
        obtain ⟨u, v, huv⟩ := hocc2
        intro h0
        rw [h0] at huv
        obtain ⟨hpne, -, -⟩ := hcp
        obtain ⟨h1, -⟩ := List.append_eq_nil.mp huv.symm
        obtain ⟨-, h2⟩ := List.append_eq_nil.mp h1
        exact hpne h2
      rw [cbpGo, if_neg hne]
      exact ⟨pyStrip current, List.mem_singleton_self _, hocc2⟩
  | cons q ps ih =>
    have hq : CleanPara q := hps q (List.mem_cons_self q ps)
    have hps' : ∀ r ∈ ps, CleanPara r := fun r hr => hps r (List.mem_cons_of_mem q hr)
    by_cases hsplit : base_chunk_size < current.length + q.length ∧ ¬ current = []
    · rw [cbpGo, if_pos hsplit]
      rcases hp with h | ⟨hcp, hocc⟩
      · rcases List.mem_cons.mp h with rfl | h'
        · obtain ⟨c, hc, hocc'⟩ := ih _ hps'
            (Or.inr ⟨hq, ⟨(if chunk_overlap < current.length then
              current.drop (current.length - chunk_overlap) else []), nn, rfl⟩⟩)
          exact ⟨c, List.mem_cons_of_mem _ hc, hocc'⟩
        · obtain ⟨c, hc, hocc'⟩ := ih _ hps' (Or.inl h')
          exact ⟨c, List.mem_cons_of_mem _ hc, hocc'⟩
      · exact ⟨pyStrip current, List.mem_cons_self _ _, occursIn_strip hcp hocc⟩
    · rw [cbpGo, if_neg hsplit]
      rcases hp with h | ⟨hcp, hocc⟩
      · rcases List.mem_cons.mp h with rfl | h'
        · exact ih _ hps' (Or.inr ⟨hq, ⟨current, nn, rfl⟩⟩)
        · exact ih _ hps' (Or.inl h')
      · obtain ⟨u, v, rfl⟩ := hocc
        exact ih _ hps' (Or.inr ⟨hcp, ⟨u, v ++ q ++ nn, by simp⟩⟩)

/-- C6 (amended): the claim's exact-reconstruction property is false
(`chunking_reconstruction_counterexample`), because splitting and stripping
normalise whitespace.  What does hold, for every input: no paragraph content
is lost — every paragraph of the input (maximal non-blank `\n\n`-separated
segment, stripped) occurs contiguously and intact inside at least one
produced chunk, in particular the chunk sequence carries all non-separator
content of the text. -/
theorem chunking_preserves_paragraphs (content p : List Char)
    (hp : p ∈ paragraphs content) :
    ∃ c ∈ chunk_by_paragraphs content, hasSub p c = true := by
  obtain ⟨c, hc, hocc⟩ :=
    cbpGo_covers (paragraphs content) [] (paragraphs_clean content) p (Or.inl hp)
  exact ⟨c, hc, (hasSub_iff p c).mpr hocc⟩

/-- Witness for C6 (amended) on the two-paragraph input `"hello\n\nworld"`. -/
theorem chunking_preserves_paragraphs_witness :
    ∃ c ∈ chunk_by_paragraphs ("hello\n\nworld".toList),
      hasSub ("hello".toList) c = true :=
  chunking_preserves_paragraphs ("hello\n\nworld".toList) ("hello".toList) (by decide)

/-! ## Document search (`DocumentProcessor.search_documents`)

Embedding vectors are exact rational vectors (`List ℚ`); the external
`SentenceTransformer.encode` is an `encode` parameter.  A hit's ranking key
`simKey` is the signed square `x·|x|` of the cosine similarity
`x = dot/(‖q‖·‖v‖)`: for vectors of nonzero norm, `x ↦ x·|x|` is a strictly
monotone bijection on the reals, so ordering by `simKey` is exactly ordering
by the cosine similarity while staying inside `ℚ` (no square roots).
Python's stable `list.sort(key=…, reverse=True)` is `List.mergeSort` with the
descending comparison, which has the same characterising properties
(descending, stable, a permutation). -/

/-- A stored chunk as `search_documents` reads it. -/
structure SChunk where
  text : String
  ctype : Option String
  deriving Repr, DecidableEq

/-- A document record in `self.document_store`. -/
structure DocInfo where
  filename : String
  dtype : String
  chunks : List SChunk
  deriving Repr, DecidableEq

/-- One search result dictionary. -/
structure SearchHit where
  doc_id : String
  filename : String
  chunk_text : String
  chunk_type : String
  simKey : ℚ
  doc_type : String
  deriving Repr, DecidableEq

/-- `np.dot` on rational vectors. -/
def dotQ (a b : List ℚ) : ℚ := (List.zipWith (fun x y => x * y) a b).sum

/-- Signed square of the cosine similarity of `q` and `v` (see section
comment); equals `x·|x|` for `x = dot/(‖q‖·‖v‖)` whenever both vectors are
nonzero. -/
def simKey (q v : List ℚ) : ℚ :=
  (dotQ q v * |dotQ q v|) / (dotQ q q * dotQ v v)

/-- The unsorted hit list: every chunk of every stored document that has a
cached embedding, scored against the (single) query embedding, in document
store/chunk order. -/
def searchHits (encode : String → List ℚ) (store : List (String × DocInfo))
    (cache : List (String × List ℚ)) (query : String) : List SearchHit :=
  let qe := encode query
  store.flatMap (fun di =>
    di.2.chunks.filterMap (fun ch =>
      match List.lookup ch.text cache with
      | some ve => some
          { doc_id := di.1
            filename := di.2.filename
            chunk_text := ch.text
            chunk_type := ch.ctype.getD "unknown"
            simKey := simKey qe ve
            doc_type := di.2.dtype }
      | none => none))

/-- Descending comparison on hits (`reverse=True`). -/
def descLe (h g : SearchHit) : Bool := decide (g.simKey ≤ h.simKey)

/-- `DocumentProcessor.search_documents`. -/
def search_documents (encode : String → List ℚ) (store : List (String × DocInfo))
    (cache : List (String × List ℚ)) (query : String) (top_k : Nat) :
    List SearchHit :=
  if cache.isEmpty then []
  else ((searchHits encode store cache query).mergeSort descLe).take top_k

theorem descLe_trans : ∀ a b c : SearchHit,
    descLe a b → descLe b c → descLe a c := by
  intro a b c hab hbc
  simp only [descLe, decide_eq_true_eq] at hab hbc ⊢
  exact le_trans hbc hab

theorem descLe_total : ∀ a b : SearchHit, descLe a b || descLe b a := by
  intro a b
  simp only [descLe, Bool.or_eq_true, decide_eq_true_eq]
  exact le_total b.simKey a.simKey

theorem filter_key_mergeSort (hits : List SearchHit) (s : ℚ) :
    (hits.mergeSort descLe).filter (fun h => h.simKey = s) =
      hits.filter (fun h => h.simKey = s) := by
  have hsub : List.Sublist (hits.filter (fun h => h.simKey = s))
      (hits.mergeSort descLe) := by
    apply List.sublist_mergeSort descLe_trans descLe_total
    · refine List.pairwise_of_forall_mem_list ?_
      intro a ha b hb
      have ha' := (List.mem_filter.mp ha).2
      have hb' := (List.mem_filter.mp hb).2
      simp only [decide_eq_true_eq] at ha' hb'
      simp [descLe, ha', hb']
    · exact List.filter_sublist hits
  have hsub2 : List.Sublist (hits.filter (fun h => h.simKey = s))
      ((hits.mergeSort descLe).filter (fun h => h.simKey = s)) := by
    have := hsub.filter (fun h => decide (h.simKey = s))
    rwa [List.filter_filter, show (fun h : SearchHit =>
      decide (h.simKey = s) && decide (h.simKey = s)) =
      (fun h : SearchHit => decide (h.simKey = s)) from by
        funext h
        cases hd : decide (h.simKey = s) <;> simp [hd]] at this
  have hlen : ((hits.mergeSort descLe).filter (fun h => h.simKey = s)).length =
      (hits.filter (fun h => h.simKey = s)).length :=
    ((List.mergeSort_perm hits descLe).filter _).length_eq
  exact (hsub2.eq_of_length hlen.symm).symm

/-- C7: search computes one query vector; every chunk with a stored embedding
is scored by (the order-preserving signed square of) cosine similarity; hits
come back sorted descending, ties kept in original chunk order (stability:
each equal-similarity class of the output is a sublist of the original hit
order), truncated to at most `topK`; an empty embedding index yields `[]`,
never an error; and when `topK` covers all hits the output is exactly a
permutation of the scored-hit list. -/
theorem search_documents_ranking (encode : String → List ℚ)
    (store : List (String × DocInfo)) (cache : List (String × List ℚ))
    (query : String) (top_k : Nat) :
    (cache = [] → search_documents encode store cache query top_k = []) ∧
    List.Pairwise (fun h g => g.simKey ≤ h.simKey)
      (search_documents encode store cache query top_k) ∧
    (search_documents encode store cache query top_k).length ≤ top_k ∧
    (¬ cache = [] → (search_documents encode store cache query top_k).length =
      min top_k (searchHits encode store cache query).length) ∧
    (∀ h ∈ search_documents encode store cache query top_k,
      ∃ v, List.lookup h.chunk_text cache = some v ∧
        h.simKey = simKey (encode query) v) ∧
    (¬ cache = [] → (searchHits encode store cache query).length ≤ top_k →
      (search_documents encode store cache query top_k).Perm
        (searchHits encode store cache query)) ∧
    (∀ s : ℚ, List.Sublist
      ((search_documents encode store cache query top_k).filter
        (fun h => h.simKey = s))
      ((searchHits encode store cache query).filter
        (fun h => h.simKey = s))) := by
  by_cases hc : cache.isEmpty
  · have hres : search_documents encode store cache query top_k = [] := by
      simp [search_documents, hc]
    rw [hres]
    refine ⟨fun _ => rfl, List.Pairwise.nil, by simp, ?_, by simp, ?_, by simp⟩
    · intro hne
      exact absurd (List.isEmpty_iff.mp hc) hne
    · intro hne
      exact absurd (List.isEmpty_iff.mp hc) hne
  · have hres : search_documents encode store cache query top_k =
        ((searchHits encode store cache query).mergeSort descLe).take top_k := by
      simp [search_documents, hc]
    have hcne : ¬ cache = [] := by simpa [List.isEmpty_iff] using hc
    rw [hres]
    refine ⟨fun h => absurd h hcne, ?_, ?_, ?_, ?_, ?_, ?_⟩
    · have hsorted := List.sorted_mergeSort descLe_trans descLe_total
        (searchHits encode store cache query)
      have htake := hsorted.sublist
        (List.take_sublist top_k _)
      exact htake.imp (fun hab => by
        simpa [descLe, decide_eq_true_eq] using hab)
    · rw [List.length_take, List.length_mergeSort]
      exact min_le_left _ _
    · intro _
      rw [List.length_take, List.length_mergeSort]
    · intro h hmem
      have hmem2 : h ∈ (searchHits encode store cache query).mergeSort descLe :=
        (List.take_sublist _ _).subset hmem
      have hmem3 : h ∈ searchHits encode store cache query :=
        List.mem_mergeSort.mp hmem2
      simp only [searchHits, List.mem_flatMap, List.mem_filterMap] at hmem3
      obtain ⟨di, -, ch, -, hch⟩ := hmem3
      rcases hlk : List.lookup ch.text cache with _ | ve
      · rw [hlk] at hch
        exact absurd hch (by simp)
      · rw [hlk] at hch
        injection hch with hh
        refine ⟨ve, ?_, ?_⟩
        · rw [← hh, hlk]
        · rw [← hh]
    · intro _ hlen
      rw [List.take_of_length_le (by rwa [List.length_mergeSort])]
      exact List.mergeSort_perm _ _
    · intro s
      have h1 : List.Sublist
          ((((searchHits encode store cache query).mergeSort descLe).take
            top_k).filter (fun h => h.simKey = s))
          (((searchHits encode store cache query).mergeSort descLe).filter
            (fun h => h.simKey = s)) :=
        (List.take_sublist _ _).filter _
      rw [filter_key_mergeSort] at h1
      exact h1

/-- A two-document store for the C7 witness. -/
def demoStore : List (String × DocInfo) :=
  [("d1",
    { filename := "f1"
      dtype := "txt"
      chunks := [{ text := "t1", ctype := some "a" },
                 { text := "t2", ctype := none }] }),
   ("d2",
    { filename := "f2"
      dtype := "pdf"
      chunks := [{ text := "t3", ctype := some "b" }] })]

/-- An embedding index covering two of the three chunks, for the C7 witness. -/
def demoCache : List (String × List ℚ) := [("t1", [1, 0]), ("t3", [0, 1])]

/-- Witness for C7: with `topK = 2` covering both embedded chunks, the search
output is a permutation of the scored-hit list. -/
theorem search_documents_ranking_witness :
    (search_documents (fun _ => [1, 0]) demoStore demoCache "q" 2).Perm
      (searchHits (fun _ => [1, 0]) demoStore demoCache "q") :=
  (search_documents_ranking (fun _ => [1, 0]) demoStore demoCache "q" 2).2.2.2.2.2.1
    (by decide) (by decide)

/-! ## Table purpose classification (`SchemaDiscovery._classify_table_purpose`)

The name-pattern regexes have optional groups, so `re.search` succeeds
exactly when a fixed substring occurs: `emp(?:loyee)?s?` ⇔ `emp`,
`dept(?:artment)?s?` ⇔ `dept`, `workers?` ⇔ `worker`, `divisions?` ⇔
`division`, `teams?` ⇔ `team`, `units?` ⇔ `unit`, `pay(?:_?rate)?` ⇔ `pay`;
`salary|salaries` ⇔ `salary` or `salaries`.  Columns are represented by
their names (the code only reads `col["name"]`). -/

/-- Employee table-name substrings (from `self.employee_patterns`). -/
def employee_patterns : List String := ["emp", "staff", "personnel", "worker", "people"]

/-- Department table-name substrings (from `self.department_patterns`). -/
def department_patterns : List String := ["dept", "division", "team", "unit"]

/-- `any(re.search(p, joined) for p in self.salary_patterns)` on the
space-joined lower-cased column names (no pattern contains a space, so this
equals a per-column check, but the joined form mirrors the code). -/
def salary_pattern_match (joined : String) : Bool :=
  pyContains "salary" joined || pyContains "salaries" joined ||
  pyContains "compensation" joined || pyContains "pay" joined ||
  pyContains "wage" joined || pyContains "income" joined

/-- `SchemaDiscovery._classify_table_purpose`. -/
def classify_table_purpose (table_name : String) (columns : List String) : String :=
  let table_lower := pyLower table_name
  let column_names := columns.map pyLower
  if employee_patterns.any (fun p => pyContains p table_lower) then "employees"
  else if department_patterns.any (fun p => pyContains p table_lower) then "departments"
  else if column_names.any (fun c => pyContains "name" c &&
      (pyContains "emp" c || pyContains "person" c || pyContains "staff" c)) then
    "employees"
  else if column_names.any (fun c =>
      pyContains "dept" c || pyContains "division" c) then "departments"
  else if salary_pattern_match (String.intercalate " " column_names) then "compensation"
  else "other"

/-- C9 (counterexample): the claimed priority is wrong on the code in two
ways.  (1) The code checks employee/department *column* hints before the
compensation hint: table `records` with columns `empname, salary` matches no
name pattern, so the claim's order gives "compensation" (salary column), but
the code returns "employees" via the `empname` column hint.  (2) There is no
document/file branch at all: table `documents` with columns `id, title`
returns "other", not a document tag. -/
theorem classify_table_purpose_counterexample :
    classify_table_purpose "records" ["empname", "salary"] = "employees" ∧
    ¬ classify_table_purpose "records" ["empname", "salary"] = "compensation" ∧
    classify_table_purpose "documents" ["id", "title"] = "other" := by
  decide

/-- C9 (amended): table-purpose classification is a first-match-wins chain
with no scoring, but its actual priority is: employee-like table names, then
department-like table names, then an employee column hint (a column whose
name contains `name` together with `emp`/`person`/`staff`), then a
department column hint (`dept`/`division` in a column name), then the
compensation column hint, else "other"; there is no document/file branch.  A
table whose name matches an employee pattern is tagged employee regardless
of its columns. -/
theorem classify_table_purpose_priority (table_name : String) (columns : List String) :
    (employee_patterns.any (fun p => pyContains p (pyLower table_name)) = true →
      classify_table_purpose table_name columns = "employees" ∧
      (∀ columns', classify_table_purpose table_name columns =
        classify_table_purpose table_name columns')) ∧
    (employee_patterns.any (fun p => pyContains p (pyLower table_name)) = false →
      department_patterns.any (fun p => pyContains p (pyLower table_name)) = true →
      classify_table_purpose table_name columns = "departments") ∧
    (employee_patterns.any (fun p => pyContains p (pyLower table_name)) = false →
      department_patterns.any (fun p => pyContains p (pyLower table_name)) = false →
      (columns.map pyLower).any (fun c => pyContains "name" c &&
        (pyContains "emp" c || pyContains "person" c || pyContains "staff" c)) = true →
      classify_table_purpose table_name columns = "employees") ∧
    (employee_patterns.any (fun p => pyContains p (pyLower table_name)) = false →
      department_patterns.any (fun p => pyContains p (pyLower table_name)) = false →
      (columns.map pyLower).any (fun c => pyContains "name" c &&
        (pyContains "emp" c || pyContains "person" c || pyContains "staff" c)) = false →
      (columns.map pyLower).any (fun c =>
        pyContains "dept" c || pyContains "division" c) = true →
      classify_table_purpose table_name columns = "departments") ∧
    (employee_patterns.any (fun p => pyContains p (pyLower table_name)) = false →
      department_patterns.any (fun p => pyContains p (pyLower table_name)) = false →
      (columns.map pyLower).any (fun c => pyContains "name" c &&
        (pyContains "emp" c || pyContains "person" c || pyContains "staff" c)) = false →
      (columns.map pyLower).any (fun c =>
        pyContains "dept" c || pyContains "division" c) = false →
      salary_pattern_match (String.intercalate " " (columns.map pyLower)) = true →
      classify_table_purpose table_name columns = "compensation") ∧
    (employee_patterns.any (fun p => pyContains p (pyLower table_name)) = false →
      department_patterns.any (fun p => pyContains p (pyLower table_name)) = false →
      (columns.map pyLower).any (fun c => pyContains "name" c &&
        (pyContains "emp" c || pyContains "person" c || pyContains "staff" c)) = false →
      (columns.map pyLower).any (fun c =>
        pyContains "dept" c || pyContains "division" c) = false →
      salary_pattern_match (String.intercalate " " (columns.map pyLower)) = false →
      classify_table_purpose table_name columns = "other") := by
  refine ⟨?_, ?_, ?_, ?_, ?_, ?_⟩
  · intro h1
    constructor
    · simp [classify_table_purpose, h1]
    · intro columns'
      simp [classify_table_purpose, h1]
  · intro h1 h2
    simp [classify_table_purpose, h1, h2]
  · intro h1 h2 h3
    simp [classify_table_purpose, h1, h2, h3]
  · intro h1 h2 h3 h4
    simp [classify_table_purpose, h1, h2, h3, h4]
  · intro h1 h2 h3 h4 h5
    simp [classify_table_purpose, h1, h2, h3, h4, h5]
  · intro h1 h2 h3 h4 h5
    simp [classify_table_purpose, h1, h2, h3, h4, h5]

/-- Witness for C9 (amended): an employee-named table is tagged `employees`
regardless of its columns. -/
theorem classify_table_purpose_priority_witness :
    classify_table_purpose "employees" ["salary"] = "employees" ∧
    classify_table_purpose "employees" ["salary"] =
      classify_table_purpose "employees" ["file_path"] :=
  ⟨((classify_table_purpose_priority "employees" ["salary"]).1 (by decide)).1,
   ((classify_table_purpose_priority "employees" ["salary"]).1 (by decide)).2 ["file_path"]⟩

/-! ## Relationship discovery (`SchemaDiscovery._discover_relationships`)

Explicit foreign-key relationship dictionaries carry no `confidence` key
(modelled `none`); inferred ones carry `0.7`.  `difflib.SequenceMatcher
.ratio()` is embedded exactly for these short, junk-free inputs: total
matched characters via recursive longest-common-block decomposition (maximal
block, earliest start in `a`, then in `b` — the choice difflib's scan makes
when no junk heuristic applies), ratio `2M/(len(a)+len(b))` as an exact
rational. -/

/-- A foreign-key record as returned by the SQLAlchemy inspector. -/
structure FKInfo where
  constrained_columns : List String
  referred_table : String
  referred_columns : List String
  deriving Repr, DecidableEq

/-- Per-table inputs of relationship discovery. -/
structure TableR where
  columns : List String
  foreign_keys : List FKInfo
  deriving Repr, DecidableEq

/-- A relationship dictionary. -/
structure Rel where
  rtype : String
  from_table : String
  from_columns : List String
  to_table : String
  to_columns : List String
  confidence : Option ℚ
  deriving Repr, DecidableEq

/-- Python `s.endswith(suffix)`. -/
def endsWith (suffix s : List Char) : Bool :=
  startsWith suffix.reverse s.reverse

/-- Python `s.replace("_id", "")` (leftmost, non-overlapping). -/
def removeIdSuffixAll : List Char → List Char
  | [] => []
  | '_' :: 'i' :: 'd' :: rest => removeIdSuffixAll rest
  | c :: rest => c :: removeIdSuffixAll rest

/-- Length of the common prefix of two character lists. -/
def commonPrefixLen : List Char → List Char → Nat
  | a :: as, b :: bs => if a = b then commonPrefixLen as bs + 1 else 0
  | _, _ => 0

/-- The longest common block `(i, j, k)`: `a[i:i+k] = b[j:j+k]`, `k` maximal,
ties broken by smallest `i`, then smallest `j` (difflib's choice with no
junk). -/
def findLongestBlock (a b : List Char) : Nat × Nat × Nat :=
  (List.range a.length).foldl (fun best i =>
    (List.range b.length).foldl (fun best j =>
      let k := commonPrefixLen (a.drop i) (b.drop j)
      if best.2.2 < k then (i, j, k) else best) best) (0, 0, 0)

/-- Total size of difflib's matching blocks (Ratcliff/Obershelp recursion):
take the longest common block, recurse on the parts left and right of it.
The fuel argument only bounds the recursion depth (each step strictly
shrinks the `a`-side, so `a.length` fuel is never exhausted); it keeps the
definition structurally recursive and hence kernel-evaluable. -/
def matchSumFuel : Nat → List Char → List Char → Nat
  | 0, _, _ => 0
  | fuel + 1, a, b =>
    match findLongestBlock a b with
    | (i, j, k) =>
      if k = 0 then 0
      else
        matchSumFuel fuel (a.take i) (b.take j) + k +
          matchSumFuel fuel (a.drop (i + k)) (b.drop (j + k))

/-- Total size of difflib's matching blocks. -/
def matchSum (a b : List Char) : Nat := matchSumFuel a.length a b

/-- `SequenceMatcher(None, a, b).ratio()` as an exact rational. -/
def seqRatio (a b : List Char) : ℚ :=
  if a.length + b.length = 0 then 1
  else (2 * (matchSum a b : ℚ)) / ((a.length : ℚ) + (b.length : ℚ))

/-- The source's `similarity > 0.8` test, cleared of denominators so the
kernel can evaluate it: `0.8 < 2M/(la+lb)` iff `4(la+lb) < 10M` (and the
degenerate two-empty-strings case has ratio 1 > 0.8).  Equivalence with the
rational form is `ratioAboveThreshold_iff`. -/
def ratioAboveThreshold (a b : List Char) : Bool :=
  if a.length + b.length = 0 then true
  else decide (4 * (a.length + b.length) < 10 * matchSum a b)

theorem ratioAboveThreshold_iff (a b : List Char) :
    ratioAboveThreshold a b = true ↔ (8 : ℚ)/10 < seqRatio a b := by
  unfold ratioAboveThreshold seqRatio
  by_cases h : a.length + b.length = 0
  · rw [if_pos h, if_pos h]
    norm_num
  · rw [if_neg h, if_neg h]
    simp only [decide_eq_true_eq]
    have hS : (0 : ℚ) < (a.length : ℚ) + (b.length : ℚ) := by
      have h0 : 0 < a.length + b.length := Nat.pos_of_ne_zero h
      exact_mod_cast h0
    rw [div_lt_div_iff₀ (by norm_num) hS]
    constructor
    · intro hlt
      have h2 : ((4 * (a.length + b.length) : ℕ) : ℚ) <
          ((10 * matchSum a b : ℕ) : ℚ) := by exact_mod_cast hlt
      push_cast at h2
      nlinarith
    · intro hlt
      have h2 : ((4 * (a.length + b.length) : ℕ) : ℚ) <
          ((10 * matchSum a b : ℕ) : ℚ) := by
        push_cast
        nlinarith
      exact_mod_cast h2

/-- `SchemaDiscovery._columns_likely_related`. -/
def columns_likely_related (col1 col2 table1 table2 : String) : Bool :=
  let c1 := (pyLower col1).toList
  let c2 := (pyLower col2).toList
  (endsWith "_id".toList c1 && decide (c2 = "id".toList) &&
    hasSub (removeIdSuffixAll c1) (pyLower table2).toList) ||
  (endsWith "_id".toList c2 && decide (c1 = "id".toList) &&
    hasSub (removeIdSuffixAll c2) (pyLower table1).toList) ||
  ratioAboveThreshold c1 c2

/-- `SchemaDiscovery._infer_implicit_relationships`. -/
def infer_implicit_relationships (tables_info : List (String × TableR)) : List Rel :=
  tables_info.flatMap (fun t1 =>
    tables_info.flatMap (fun t2 =>
      if t1.1 = t2.1 then []
      else t1.2.columns.flatMap (fun col1 =>
        t2.2.columns.filterMap (fun col2 =>
          if columns_likely_related col1 col2 t1.1 t2.1 then
            some
              { rtype := "inferred"
                from_table := t1.1
                from_columns := [col1]
                to_table := t2.1
                to_columns := [col2]
                confidence := some (7/10) }
          else none))))

/-- `SchemaDiscovery._discover_relationships`. -/
def discover_relationships (tables_info : List (String × TableR)) : List Rel :=
  (tables_info.flatMap (fun ti =>
    ti.2.foreign_keys.map (fun fk =>
      { rtype := "foreign_key"
        from_table := ti.1
        from_columns := fk.constrained_columns
        to_table := fk.referred_table
        to_columns := fk.referred_columns
        confidence := none }))) ++
  infer_implicit_relationships tables_info

/-- A two-table schema with an explicit foreign key `orders.emp_id →
employees.id`, for the C8 counterexample and witness. -/
def c8demo : List (String × TableR) :=
  [("employees", { columns := ["id", "name"], foreign_keys := [] }),
   ("orders",
    { columns := ["emp_id"]
      foreign_keys := [{ constrained_columns := ["emp_id"]
                         referred_table := "employees"
                         referred_columns := ["id"] }] })]

/-- C8 (counterexample): inferred relationships are not suppressed when an
explicit foreign key covers the same (from-table, from-columns) pair.  With
an explicit FK `orders.emp_id → employees.id`, the inference pass still
emits the inferred relationship `orders.[emp_id] → employees.[id]` (via the
`_id`-suffix rule), so the result contains both an explicit and an inferred
relationship with the identical (from-table, from-columns) pair. -/
theorem inferred_duplicates_explicit_counterexample :
    ∃ r ∈ discover_relationships c8demo, r.rtype = "inferred" ∧
      ∃ r2 ∈ discover_relationships c8demo, r2.rtype = "foreign_key" ∧
        r.from_table = r2.from_table ∧ r.from_columns = r2.from_columns := by
  decide

/-- C8 (amended): every relationship produced by discovery is either an
explicit foreign-key relationship (kind "foreign_key", no confidence field)
or an inferred one with kind "inferred" and confidence exactly 0.7 < 1.0;
however — amendment forced by `inferred_duplicates_explicit_counterexample`
— inferred relationships are not deduplicated against explicit ones, so the
same (from-table, from-columns) pair can appear with both kinds. -/
theorem inferred_relationships_confidence (tables_info : List (String × TableR)) :
    ∀ r ∈ discover_relationships tables_info,
      (r.rtype = "foreign_key" ∧ r.confidence = none) ∨
      (r.rtype = "inferred" ∧ r.confidence = some (7/10) ∧ (7/10 : ℚ) < 1) := by
  intro r hr
  simp only [discover_relationships, List.mem_append, List.mem_flatMap,
    List.mem_map] at hr
  rcases hr with ⟨ti, -, fk, -, hfk⟩ | hr
  · left
    rw [← hfk]
    exact ⟨rfl, rfl⟩
  · right
    simp only [infer_implicit_relationships, List.mem_flatMap] at hr
    obtain ⟨t1, -, t2, -, hmem⟩ := hr
    by_cases hteq : t1.1 = t2.1
    · rw [if_pos hteq] at hmem
      simp at hmem
    · rw [if_neg hteq] at hmem
      simp only [List.mem_flatMap, List.mem_filterMap] at hmem
      obtain ⟨col1, -, col2, -, hopt⟩ := hmem
      split_ifs at hopt
      injection hopt with hh
      rw [← hh]
      exact ⟨rfl, rfl, by norm_num⟩

/-- Witness for C8 (amended) at the explicit relationship of `c8demo`. -/
theorem inferred_relationships_confidence_witness :
    (({ rtype := "foreign_key"
        from_table := "orders"
        from_columns := ["emp_id"]
        to_table := "employees"
        to_columns := ["id"]
        confidence := none } : Rel).rtype = "foreign_key" ∧
      ({ rtype := "foreign_key"
         from_table := "orders"
         from_columns := ["emp_id"]
         to_table := "employees"
         to_columns := ["id"]
         confidence := none } : Rel).confidence = none) ∨
    (({ rtype := "foreign_key"
        from_table := "orders"
        from_columns := ["emp_id"]
        to_table := "employees"
        to_columns := ["id"]
        confidence := none } : Rel).rtype = "inferred" ∧
      ({ rtype := "foreign_key"
         from_table := "orders"
         from_columns := ["emp_id"]
         to_table := "employees"
         to_columns := ["id"]
         confidence := none } : Rel).confidence = some (7/10) ∧ (7/10 : ℚ) < 1) :=
  inferred_relationships_confidence c8demo
    { rtype := "foreign_key"
      from_table := "orders"
      from_columns := ["emp_id"]
      to_table := "employees"
      to_columns := ["id"]
      confidence := none } (by decide)

/-! ## Query processing wrapper (`QueryEngine.process_query`)

`process_query` classifies (pure, total — `_classify_query` cannot raise),
dispatches to one of the four processors, and wraps everything in
`try/except`.  The four processors perform external I/O (database execution,
embedding search), so they are parameters returning `Except`; an exception
carries the engine state as the raising processor left it — the `except`
clause itself performs no state mutation and no rollback, which is the
"unchanged at this level" part of the claim (the processors in the source
write no engine fields).  `time.time() - start_time` is the `elapsed`
parameter. -/

/-- The result dictionary of `process_query` (fields that any branch sets;
absent keys are `none`). -/
structure QueryRes (ρ : Type) where
  results : List ρ
  query_type : String
  sources : List String
  sql_query : Option String
  error : Option String
  complexity : Option String
  processing_time : Option ℚ
  deriving Repr

/-- Number of words of Python `s.split()` (splits on whitespace runs,
dropping empty strings). -/
def pyWordCountAux : List Char → Bool → Nat
  | [], _ => 0
  | c :: rest, inWord =>
    if pySpace c then pyWordCountAux rest false
    else (if inWord then 0 else 1) + pyWordCountAux rest true

/-- `len(query.split())`. -/
def pyWordCount (s : String) : Nat := pyWordCountAux s.toList false

/-- `QueryEngine._calculate_query_complexity` (it only reads
`classification['type']`). -/
def calculate_query_complexity (query : String) (ctype : String) : String :=
  let ql := pyLower query
  let s1 := if pyContains "join" ql || pyContains "group by" ql ||
      pyContains "having" ql then 2 else 0
  let s2 := if pyContains "count" ql || pyContains "avg" ql ||
      pyContains "sum" ql then 1 else 0
  let s3 := if 10 < pyWordCount query then 1 else 0
  let s4 := if ctype = "hybrid" then 2 else 0
  let score := s1 + s2 + s3 + s4
  if 4 ≤ score then "high" else if 2 ≤ score then "medium" else "low"

/-- The dispatch inside the `try` block of `process_query`. -/
def routeQuery {ρ σ : Type}
    (hSql : String → Classification → σ → Except (String × σ) (QueryRes ρ × σ))
    (hDoc hHyb hGen : String → σ → Except (String × σ) (QueryRes ρ × σ))
    (q : String) (st : σ) : Except (String × σ) (QueryRes ρ × σ) :=
  let cls := classify_query q
  if cls.qtype = "sql" then hSql q cls st
  else if cls.qtype = "document" then hDoc q st
  else if cls.qtype = "hybrid" then hHyb q st
  else hGen q st

/-- `QueryEngine.process_query`: run the dispatch, attach complexity and
processing time on success, and turn any exception into the structured
error dictionary. -/
def process_query {ρ σ : Type}
    (hSql : String → Classification → σ → Except (String × σ) (QueryRes ρ × σ))
    (hDoc hHyb hGen : String → σ → Except (String × σ) (QueryRes ρ × σ))
    (elapsed : ℚ) (q : String) (st : σ) : QueryRes ρ × σ :=
  match routeQuery hSql hDoc hHyb hGen q st with
  | .ok (r, st') =>
    ({ r with
        complexity := some (calculate_query_complexity q (classify_query q).qtype)
        processing_time := some elapsed }, st')
  | .error (e, st') =>
    ({ results := []
       query_type := "error"
       sources := []
       sql_query := none
       error := some e
       complexity := none
       processing_time := some elapsed }, st')

/-- C10: `process_query` is a total function — no exception from
classification or any downstream processor escapes it.  If the dispatched
processor raises, the caller receives the structured error dictionary (empty
results, `query_type = 'error'`, the exception message in `error`, and a
`processing_time` field) and the engine state exactly as the processor left
it — the handler adds no state change of its own; if the processor succeeds,
its result is returned with complexity and processing time attached and the
state passed through. -/
theorem process_query_error_handling {ρ σ : Type}
    (hSql : String → Classification → σ → Except (String × σ) (QueryRes ρ × σ))
    (hDoc hHyb hGen : String → σ → Except (String × σ) (QueryRes ρ × σ))
    (elapsed : ℚ) (q : String) (st : σ) :
    (∀ e st', routeQuery hSql hDoc hHyb hGen q st = .error (e, st') →
      process_query hSql hDoc hHyb hGen elapsed q st =
        ({ results := []
           query_type := "error"
           sources := []
           sql_query := none
           error := some e
           complexity := none
           processing_time := some elapsed }, st')) ∧
    (∀ r st', routeQuery hSql hDoc hHyb hGen q st = .ok (r, st') →
      process_query hSql hDoc hHyb hGen elapsed q st =
        ({ r with
            complexity :=
              some (calculate_query_complexity q (classify_query q).qtype)
            processing_time := some elapsed }, st')) ∧
    ((classify_query q).qtype = "sql" →
      routeQuery hSql hDoc hHyb hGen q st = hSql q (classify_query q) st) := by
  refine ⟨?_, ?_, ?_⟩
  · intro e st' hroute
    unfold process_query
    rw [hroute]
  · intro r st' hroute
    unfold process_query
    rw [hroute]
  · intro hsql
    unfold routeQuery
    rw [if_pos hsql]

/-- Witness for C10: a processor that raises "boom" on an sql-classified
query yields the structured error dictionary with the state untouched. -/
theorem process_query_error_handling_witness :
    process_query (ρ := Unit) (σ := Nat)
        (fun _ _ st => .error ("boom", st))
        (fun _ st => .error ("boom", st))
        (fun _ st => .error ("boom", st))
        (fun _ st => .error ("boom", st))
        1 "How many employees do we have?" 42 =
      ({ results := []
         query_type := "error"
         sources := []
         sql_query := none
         error := some "boom"
         complexity := none
         processing_time := some 1 }, 42) :=
  (process_query_error_handling
      (fun _ _ st => .error ("boom", st))
      (fun _ st => .error ("boom", st))
      (fun _ st => .error ("boom", st))
      (fun _ st => .error ("boom", st))
      1 "How many employees do we have?" 42).1 "boom" 42 rfl

end NLPQE
